import Mathlib

/-!
Verification of the ADF ↔ Markdown converter of `internal/bridge/jira/adf.go`
(repository gurisko/takl).

The Go source is embedded shallowly:

* strings are modelled as `List Char` (`Str`); every Go string helper that the
  converter uses (`strings.TrimSpace`, `strings.Split`, `strings.HasPrefix`,
  `strings.Repeat`, ...) is re-defined here on `Str`, following the Go
  semantics for the character sets involved;
* every regular expression of adf.go is compiled by hand into an executable
  leftmost matcher; for the simple patterns in this file (literals,
  negated-character-class runs and the two `\s+(.+)$` / `\b` backtracking
  points) leftmost-first RE2 matching is deterministic, and the matchers
  implement exactly that behaviour;
* the functions of adf.go keep their names (`ADFToMarkdown`, `applyMarks`,
  `parseList`, ...); helpers that in Go receive the whole node receive the
  fields they actually read (Lean's structural recursion needs the child list
  to be a subterm);
* the unbounded `for` loops of `MarkdownToADF`, `parseList` and
  `parseInlineContent` are modelled with explicit fuel.  For `parseList` and
  `parseInlineContent` every iteration consumes input, so a fuel of
  `input length + 1` is always sufficient and the fuel-zero branch is dead;
  for the top-level block-dispatch loop of `MarkdownToADF` an iteration can
  consume zero lines, in which case the Go loop never advances again
  (the state of the loop is just the line index), so "fuel exhausted"
  (`none`) holds for every fuel exactly when the Go loop diverges;
* numeric JSON values are modelled as integers (the parser itself only ever
  produces integers, and integral numbers survive Go's JSON marshal /
  unmarshal round trip unchanged);
* `json.Unmarshal` into the `ADFDocument` / `ADFNode` / `ADFMark` structs is
  modelled by `decodeDoc` over a JSON value tree, with a separate
  `JSONInput.malformed` constructor standing for byte strings that are not
  syntactically valid JSON.
-/

namespace Takl

/-! ## Strings as lists of characters -/

abbrev Str := List Char

/-- Go `unicode.IsSpace` on the characters that can occur here
(ASCII plus the two Latin-1 space characters). -/
def isGoSpace (c : Char) : Bool :=
  c = ' ' || c = '\t' || c = '\n' || c = Char.ofNat 0x0b || c = Char.ofNat 0x0c ||
  c = '\r' || c = Char.ofNat 0x85 || c = Char.ofNat 0xa0

/-- RE2 `\s`, which is `[\t\n\f\r ]`. -/
def isReSpace (c : Char) : Bool :=
  c = '\t' || c = '\n' || c = Char.ofNat 0x0c || c = '\r' || c = ' '

/-- RE2 `\w`, which is `[0-9A-Za-z_]`. -/
def isWordChar (c : Char) : Bool :=
  ('0' ≤ c && c ≤ '9') || ('A' ≤ c && c ≤ 'Z') || ('a' ≤ c && c ≤ 'z') || c = '_'

def isDigit (c : Char) : Bool := '0' ≤ c && c ≤ '9'

/-- `strings.HasPrefix`. -/
def strStarts : Str → Str → Bool
  | _, [] => true
  | [], _ :: _ => false
  | c :: cs, p :: ps => c = p && strStarts cs ps

/-- Longest run of characters satisfying `p`, and the rest. -/
def spanP (p : Char → Bool) (l : Str) : Str × Str :=
  (l.takeWhile p, l.dropWhile p)

def dropEndWhile (p : Char → Bool) (l : Str) : Str :=
  (l.reverse.dropWhile p).reverse

/-- `strings.TrimSpace`. -/
def trimSpace (l : Str) : Str :=
  dropEndWhile isGoSpace (l.dropWhile isGoSpace)

/-- `strings.TrimPrefix`. -/
def dropStart (l : Str) (p : Str) : Str :=
  if strStarts l p then l.drop p.length else l

/-- `strings.TrimSuffix`. -/
def dropEnd (l : Str) (suf : Str) : Str :=
  if strStarts l.reverse suf.reverse then (l.reverse.drop suf.length).reverse else l

/-- `strings.Split` on a single separator character (always at least one piece). -/
def splitCh (sep : Char) : Str → List Str
  | [] => [[]]
  | c :: cs =>
    match splitCh sep cs with
    | [] => [[c]]
    | h :: t => if c = sep then [] :: h :: t else (c :: h) :: t

/-- `strings.Join`. -/
def joinSep (sep : Str) : List Str → Str
  | [] => []
  | [x] => x
  | x :: y :: xs => x ++ sep ++ joinSep sep (y :: xs)

/-- `strings.Repeat` of a one-character string, non-negative count. -/
def repChar (c : Char) : Nat → Str
  | 0 => []
  | n + 1 => c :: repChar c n

/-- `strings.Repeat` with the count the Go code computes as an `int`:
Go panics on a negative count, this total model returns `[]` there
(the panic itself is treated in the C7 analysis via `stringsRepeatGo`). -/
def repCharInt (c : Char) (n : Int) : Str := repChar c n.toNat

/-- `strings.Repeat` with Go's panic on negative counts made explicit:
`none` is the panic. -/
def stringsRepeatGo (c : Char) (n : Int) : Option Str :=
  if n < 0 then none else some (repChar c n.toNat)

/-- `strings.Contains`. -/
def containsSub : Str → Str → Bool
  | l, sub => if strStarts l sub then true else
      match l with
      | [] => false
      | _ :: cs => containsSub cs sub

/-- `strings.Trim(s, "|")`: remove leading and trailing runs of `'|'`. -/
def trimPipes (l : Str) : Str :=
  dropEndWhile (fun c => c = '|') (l.dropWhile (fun c => c = '|'))

/-- Decimal digits of `n` (auxiliary, fuelled). -/
def natDigits : Nat → Nat → Str
  | 0, _ => []
  | fuel + 1, n =>
    if n < 10 then [Char.ofNat (48 + n)]
    else natDigits fuel (n / 10) ++ [Char.ofNat (48 + n % 10)]

/-- Decimal notation of a natural number (Go `fmt.Sprintf("%d", n)` for `n ≥ 0`). -/
def natToStr (n : Nat) : Str := natDigits (n + 1) n

/-- Number of leading `' '` characters (Go `getIndent` counts only spaces). -/
def getIndent (l : Str) : Nat := (l.takeWhile (fun c => c = ' ')).length

/-! ## The ADF document model (`ADFNode`, `ADFMark`, `ADFDocument`) -/

/-- A JSON-ish attribute value, the model of a Go `interface{}` held in the
`Attrs` maps.  Numbers are modelled as integers (see the header comment). -/
inductive AttrVal where
  | s (v : Str)
  | n (v : Int)
  | b (v : Bool)
  | nullv
  | arr (vs : List AttrVal)
  | obj (kvs : List (Str × AttrVal))

/-- Go type assertion `.(string)`. -/
def AttrVal.asStr : AttrVal → Option Str
  | .s v => some v
  | _ => none

/-- Go type assertion `.(float64)` (JSON numbers; integral values only). -/
def AttrVal.asNum : AttrVal → Option Int
  | .n v => some v
  | _ => none

/-- Go type assertion `.(map[string]interface{})`. -/
def AttrVal.asObj : AttrVal → Option (List (Str × AttrVal))
  | .obj kvs => some kvs
  | _ => none

/-- The `Attrs` field: `none` is Go's nil map. -/
abbrev Attrs := Option (List (Str × AttrVal))

def lookupKV : List (Str × AttrVal) → Str → Option AttrVal
  | [], _ => none
  | (k, v) :: rest, key => if k = key then some v else lookupKV rest key

/-- Map lookup through a possibly-nil `Attrs`. -/
def attrGet (a : Attrs) (key : Str) : Option AttrVal :=
  match a with
  | none => none
  | some kvs => lookupKV kvs key

/-- `ADFMark`. -/
structure ADFMark where
  ty : Str
  attrs : Attrs

/-- `ADFNode` (a structure in Go; an inductive here because it is recursive
through a list of children). -/
inductive ADFNode where
  | mk (ty : Str) (content : List ADFNode) (text : Str) (marks : List ADFMark)
       (attrs : Attrs)

def ADFNode.ty : ADFNode → Str
  | .mk t _ _ _ _ => t

def ADFNode.content : ADFNode → List ADFNode
  | .mk _ c _ _ _ => c

def ADFNode.text : ADFNode → Str
  | .mk _ _ t _ _ => t

def ADFNode.marks : ADFNode → List ADFMark
  | .mk _ _ _ m _ => m

def ADFNode.attrs : ADFNode → Attrs
  | .mk _ _ _ _ a => a

/-- `ADFDocument`. -/
structure ADFDocument where
  ty : Str
  version : Int
  content : List ADFNode

/-- Convenient constructors for the node shapes the parser produces. -/
def textNode (t : Str) : ADFNode := .mk "text".data [] t [] none

def textNodeM (t : Str) (ms : List ADFMark) : ADFNode := .mk "text".data [] t ms none

end Takl

namespace Takl

/-! ## `applyMarks`: the serialize direction of the inline mark engine -/

/-- The flags the loop at the top of `applyMarks` collects. -/
structure MarkState where
  strong : Bool
  em : Bool
  code : Bool
  strike : Bool
  underline : Bool
  link : Option ADFMark
  subsup : Option ADFMark
  textColor : Option ADFMark
  border : Option ADFMark

def initMarkState : MarkState :=
  ⟨false, false, false, false, false, none, none, none, none⟩

/-- One iteration of the `for _, mark := range marks` switch. -/
def collectMark (st : MarkState) (m : ADFMark) : MarkState :=
  if m.ty = "strong".data then { st with strong := true }
  else if m.ty = "em".data then { st with em := true }
  else if m.ty = "code".data then { st with code := true }
  else if m.ty = "strike".data then { st with strike := true }
  else if m.ty = "underline".data then { st with underline := true }
  else if m.ty = "link".data then { st with link := some m }
  else if m.ty = "subsup".data then { st with subsup := some m }
  else if m.ty = "textColor".data then { st with textColor := some m }
  else if m.ty = "border".data then { st with border := some m }
  else st

def collectMarks (ms : List ADFMark) : MarkState := ms.foldl collectMark initMarkState

def attrStr (a : Attrs) (key : Str) : Option Str := (attrGet a key).bind AttrVal.asStr

def backquoteCh : Char := Char.ofNat 96

def wrapCode (st : MarkState) (r : Str) : Str :=
  if st.code then backquoteCh :: r ++ [backquoteCh] else r

def wrapSubsup (st : MarkState) (r : Str) : Str :=
  match st.subsup with
  | none => r
  | some m =>
    match attrStr m.attrs "type".data with
    | none => r
    | some t =>
      if t = "sub".data then "<sub>".data ++ r ++ "</sub>".data
      else if t = "sup".data then "<sup>".data ++ r ++ "</sup>".data
      else r

def wrapStrike (st : MarkState) (r : Str) : Str :=
  if st.strike then "~~".data ++ r ++ "~~".data else r

def wrapUnderline (st : MarkState) (r : Str) : Str :=
  if st.underline then "<u>".data ++ r ++ "</u>".data else r

def wrapTextColor (st : MarkState) (r : Str) : Str :=
  match st.textColor with
  | none => r
  | some m =>
    match attrStr m.attrs "color".data with
    | none => r
    | some c => "<span style=\"color: ".data ++ c ++ "\">".data ++ r ++ "</span>".data

def wrapBorder (st : MarkState) (r : Str) : Str :=
  match st.border with
  | none => r
  | some m =>
    match attrStr m.attrs "color".data with
    | none => r
    | some c => "<span style=\"border: 1px solid ".data ++ c ++ "\">".data ++ r ++ "</span>".data

def wrapEm (st : MarkState) (r : Str) : Str :=
  if st.em then '*' :: r ++ ['*'] else r

def wrapStrong (st : MarkState) (r : Str) : Str :=
  if st.strong then "**".data ++ r ++ "**".data else r

def wrapLink (st : MarkState) (r : Str) : Str :=
  match st.link with
  | none => r
  | some m =>
    match attrStr m.attrs "href".data with
    | none => r
    | some href => '[' :: r ++ "](".data ++ href ++ [')']

/-- `applyMarks` of adf.go: the sequence of conditional wraps, innermost first,
in exactly the source order. -/
def applyMarks (text : Str) (marks : List ADFMark) : Str :=
  if marks.isEmpty then text
  else
    let st := collectMarks marks
    wrapLink st (wrapStrong st (wrapEm st (wrapBorder st (wrapTextColor st
      (wrapUnderline st (wrapStrike st (wrapSubsup st (wrapCode st text))))))))

/-- Modelled from the spec (§4.1/§9): the wrap order as a static ordered table,
applied in sequence, innermost to outermost. -/
def markWrapTable : List (MarkState → Str → Str) :=
  [wrapCode, wrapSubsup, wrapStrike, wrapUnderline, wrapTextColor, wrapBorder,
   wrapEm, wrapStrong, wrapLink]

/-- Modelled from the spec: fold the wrap table over the text. -/
def applyMarksSpec (text : Str) (marks : List ADFMark) : Str :=
  markWrapTable.foldl (fun r w => w (collectMarks marks) r) text

/-! ## The inline matchers (hand-compiled regular expressions) -/

/-- A match at the current position: captured groups plus the unconsumed rest. -/
structure MRes where
  g1 : Str
  g2 : Option Str
  rest : Str

def expCh (c : Char) : Str → Option Str
  | [] => none
  | x :: xs => if x = c then some xs else none

def expLit (lit : Str) (s : Str) : Option Str :=
  if strStarts s lit then some (s.drop lit.length) else none

/-- Nonempty greedy run of characters satisfying `p`. -/
def spanNE (p : Char → Bool) (s : Str) : Option (Str × Str) :=
  if (spanP p s).1 = [] then none else some (spanP p s)

/-- `!\[([^\]]*)\]\(([^)]+)\)` at the current position. -/
def matchImageAt (s : Str) : Option MRes := do
  let r1 ← expCh '!' s
  let r2 ← expCh '[' r1
  let (alt, r3) := spanP (fun c => c != ']') r2
  let r4 ← expCh ']' r3
  let r5 ← expCh '(' r4
  let (url, r6) ← spanNE (fun c => c != ')') r5
  let r7 ← expCh ')' r6
  some ⟨alt, some url, r7⟩

/-- `\[([^\]]+)\]\(([^)]+)\)` at the current position. -/
def matchLinkAt (s : Str) : Option MRes := do
  let r1 ← expCh '[' s
  let (txt, r2) ← spanNE (fun c => c != ']') r1
  let r3 ← expCh ']' r2
  let r4 ← expCh '(' r3
  let (url, r5) ← spanNE (fun c => c != ')') r4
  let r6 ← expCh ')' r5
  some ⟨txt, some url, r6⟩

/-- `` `([^`]+)` `` at the current position. -/
def matchCodeAt (s : Str) : Option MRes := do
  let r1 ← expCh backquoteCh s
  let (txt, r2) ← spanNE (fun c => c != backquoteCh) r1
  let r3 ← expCh backquoteCh r2
  some ⟨txt, none, r3⟩

/-- Shared tail `">([^<]+)</span>` of the three span patterns. -/
def spanCloseTail (g1 : Str) (r : Str) : Option MRes := do
  let r1 ← expLit "\">".data r
  let (txt, r2) ← spanNE (fun c => c != '<') r1
  let r3 ← expLit "</span>".data r2
  some ⟨g1, some txt, r3⟩

/-- `<span data-status="([^"]+)">([^<]+)</span>` at the current position. -/
def matchStatusAt (s : Str) : Option MRes := do
  let r1 ← expLit "<span data-status=\"".data s
  let (color, r2) ← spanNE (fun c => c != '"') r1
  spanCloseTail color r2

/-- After `\s*`, a nonempty `[^"]+` group; when the greedy whitespace run ate
everything up to the quote, RE2 backtracks one whitespace character into the
group. -/
def colorGroup (w : Str) (r : Str) : Option (Str × Str) :=
  match spanP (fun c => c != '"') r with
  | ([], _) =>
    match w.getLast? with
    | some c => some ([c], r)
    | none => none
  | (clr, r2) => some (clr, r2)

/-- `<span style="color:\s*([^"]+)">([^<]+)</span>` at the current position. -/
def matchTextColorAt (s : Str) : Option MRes := do
  let r1 ← expLit "<span style=\"color:".data s
  let (w, r2) := spanP isReSpace r1
  let (clr, r3) ← colorGroup w r2
  spanCloseTail clr r3

/-- `<span style="border:\s*1px solid\s*([^"]+)">([^<]+)</span>`. -/
def matchBorderAt (s : Str) : Option MRes := do
  let r1 ← expLit "<span style=\"border:".data s
  let (_, r2) := spanP isReSpace r1
  let r3 ← expLit "1px solid".data r2
  let (w2, r4) := spanP isReSpace r3
  let (clr, r5) ← colorGroup w2 r4
  spanCloseTail clr r5

/-- `<sub>([^<]+)</sub>` at the current position. -/
def matchSubAt (s : Str) : Option MRes := do
  let r1 ← expLit "<sub>".data s
  let (txt, r2) ← spanNE (fun c => c != '<') r1
  let r3 ← expLit "</sub>".data r2
  some ⟨txt, none, r3⟩

/-- `<sup>([^<]+)</sup>` at the current position. -/
def matchSupAt (s : Str) : Option MRes := do
  let r1 ← expLit "<sup>".data s
  let (txt, r2) ← spanNE (fun c => c != '<') r1
  let r3 ← expLit "</sup>".data r2
  some ⟨txt, none, r3⟩

/-- `<u>([^<]+)</u>` at the current position. -/
def matchUnderlineAt (s : Str) : Option MRes := do
  let r1 ← expLit "<u>".data s
  let (txt, r2) ← spanNE (fun c => c != '<') r1
  let r3 ← expLit "</u>".data r2
  some ⟨txt, none, r3⟩

def isWordOpt : Option Char → Bool
  | some c => isWordChar c
  | none => false

/-- Word boundary after `j` characters of the `[\w.-]+` run. -/
def mentionBoundary (run : Str) (rest : Str) (j : Nat) : Bool :=
  isWordOpt (run.get? (j - 1)) !=
    isWordOpt (if j < run.length then run.get? j else rest.head?)

/-- Largest prefix length `1 ≤ j` of the greedy run after which `\b` holds
(greedy first, then backtracking shorter). -/
def mentionK : Nat → Str → Str → Option Nat
  | 0, _, _ => none
  | j + 1, run, rest =>
    if mentionBoundary run rest (j + 1) then some (j + 1) else mentionK j run rest

/-- `@([\w.-]+)\b` at the current position. -/
def matchMentionAt (s : Str) : Option MRes := do
  let r1 ← expCh '@' s
  let (run, r2) ← spanNE (fun c => isWordChar c || c = '.' || c = '-') r1
  let j ← mentionK run.length run r2
  some ⟨run.take j, none, run.drop j ++ r2⟩

/-- `:([a-z0-9_+-]+):` at the current position. -/
def matchEmojiAt (s : Str) : Option MRes := do
  let r1 ← expCh ':' s
  let (run, r2) ← spanNE (fun c => ('a' ≤ c && c ≤ 'z') || isDigit c || c = '_' || c = '+' || c = '-') r1
  let r3 ← expCh ':' r2
  some ⟨run, none, r3⟩

/-- `\*\*([^*]+)\*\*` at the current position. -/
def matchBold1At (s : Str) : Option MRes := do
  let r1 ← expCh '*' s
  let r2 ← expCh '*' r1
  let (txt, r3) ← spanNE (fun c => c != '*') r2
  let r4 ← expCh '*' r3
  let r5 ← expCh '*' r4
  some ⟨txt, none, r5⟩

/-- `__([^_]+)__` at the current position. -/
def matchBold2At (s : Str) : Option MRes := do
  let r1 ← expCh '_' s
  let r2 ← expCh '_' r1
  let (txt, r3) ← spanNE (fun c => c != '_') r2
  let r4 ← expCh '_' r3
  let r5 ← expCh '_' r4
  some ⟨txt, none, r5⟩

/-- `\*([^*]+)\*` at the current position. -/
def matchItalic1At (s : Str) : Option MRes := do
  let r1 ← expCh '*' s
  let (txt, r2) ← spanNE (fun c => c != '*') r1
  let r3 ← expCh '*' r2
  some ⟨txt, none, r3⟩

/-- `_([^_]+)_` at the current position. -/
def matchItalic2At (s : Str) : Option MRes := do
  let r1 ← expCh '_' s
  let (txt, r2) ← spanNE (fun c => c != '_') r1
  let r3 ← expCh '_' r2
  some ⟨txt, none, r3⟩

/-- `~~([^~]+)~~` at the current position. -/
def matchStrikeAt (s : Str) : Option MRes := do
  let r1 ← expCh '~' s
  let r2 ← expCh '~' r1
  let (txt, r3) ← spanNE (fun c => c != '~') r2
  let r4 ← expCh '~' r3
  let r5 ← expCh '~' r4
  some ⟨txt, none, r5⟩

/-- A leftmost match: unmatched text before it, groups, unconsumed rest. -/
structure Found where
  pre : Str
  g1 : Str
  g2 : Option Str
  rest : Str

/-- Leftmost matching, as `regexp.FindStringSubmatchIndex`: try every start
position from the left. -/
def scanFind (m : Str → Option MRes) : Str → Option Found
  | [] => none
  | c :: cs =>
    match m (c :: cs) with
    | some r => some ⟨[], r.g1, r.g2, r.rest⟩
    | none => (scanFind m cs).map (fun f => { f with pre := c :: f.pre })

/-- One entry of the `patterns` table of `parseInlineContent`. -/
structure Pat where
  mAt : Str → Option MRes
  ty : Str
  mark : Str

def Pat.find (p : Pat) (s : Str) : Option Found := scanFind p.mAt s

/-- The `patterns` table, in source order. -/
def inlinePatterns : List Pat :=
  [⟨matchImageAt, "image".data, []⟩,
   ⟨matchLinkAt, "link".data, []⟩,
   ⟨matchCodeAt, "code".data, "code".data⟩,
   ⟨matchStatusAt, "status".data, []⟩,
   ⟨matchTextColorAt, "textColor".data, []⟩,
   ⟨matchBorderAt, "border".data, []⟩,
   ⟨matchSubAt, "subsup".data, "sub".data⟩,
   ⟨matchSupAt, "subsup".data, "sup".data⟩,
   ⟨matchUnderlineAt, "underline".data, "underline".data⟩,
   ⟨matchMentionAt, "mention".data, []⟩,
   ⟨matchEmojiAt, "emoji".data, []⟩,
   ⟨matchBold1At, "strong".data, "strong".data⟩,
   ⟨matchBold2At, "strong".data, "strong".data⟩,
   ⟨matchItalic1At, "em".data, "em".data⟩,
   ⟨matchItalic2At, "em".data, "em".data⟩,
   ⟨matchStrikeAt, "strike".data, "strike".data⟩]

/-- The "find the earliest match" loop of `parseInlineContent`:
`earliestPos` starts at the length of the remaining text and a pattern only
replaces the current best on a strictly smaller position. -/
def pickFrom : List Pat → Nat → Str → Nat → Option (Nat × Pat × Found) →
    Option (Nat × Pat × Found)
  | [], _, _, _, best => best
  | p :: ps, i, s, earliest, best =>
    match p.find s with
    | some f =>
      if f.pre.length < earliest then pickFrom ps (i + 1) s f.pre.length (some (i, p, f))
      else pickFrom ps (i + 1) s earliest best
    | none => pickFrom ps (i + 1) s earliest best

def pickEarliest (s : Str) : Option (Nat × Pat × Found) :=
  pickFrom inlinePatterns 0 s s.length none

/-- The node construction for the selected pattern (the `if/else` chain on
`earliestPattern.type_`). -/
def inlineNodeFor (p : Pat) (f : Found) : ADFNode :=
  if p.ty = "image".data then
    let url := f.g2.getD []
    if strStarts url "attachment:".data then
      .mk "media".data [] [] []
        (some [("id".data, .s (dropStart url "attachment:".data)),
               ("type".data, .s "file".data), ("alt".data, .s f.g1)])
    else
      .mk "media".data [] [] []
        (some [("url".data, .s url), ("type".data, .s "external".data),
               ("alt".data, .s f.g1)])
  else if p.ty = "link".data then
    textNodeM f.g1 [⟨"link".data, some [("href".data, .s (f.g2.getD []))]⟩]
  else if p.ty = "status".data then
    .mk "status".data [] [] []
      (some [("text".data, .s (f.g2.getD [])), ("color".data, .s f.g1)])
  else if p.ty = "mention".data then
    .mk "mention".data [] [] []
      (some [("text".data, .s f.g1), ("id".data, .s f.g1)])
  else if p.ty = "emoji".data then
    .mk "emoji".data [] [] []
      (some [("shortName".data, .s (':' :: f.g1 ++ [':'])),
             ("text".data, .s (':' :: f.g1 ++ [':']))])
  else if p.ty = "textColor".data then
    textNodeM (f.g2.getD []) [⟨"textColor".data, some [("color".data, .s f.g1)]⟩]
  else if p.ty = "border".data then
    textNodeM (f.g2.getD []) [⟨"border".data, some [("color".data, .s f.g1)]⟩]
  else if p.ty = "subsup".data then
    textNodeM f.g1 [⟨"subsup".data, some [("type".data, .s p.mark)]⟩]
  else
    textNodeM f.g1 [⟨p.mark, none⟩]

/-- The scanning loop of `parseInlineContent`, with fuel; every iteration
consumes at least one character, so fuel `length + 1` never runs out. -/
def parseInlineGo : Nat → Str → List ADFNode
  | 0, _ => []
  | fuel + 1, remaining =>
    if remaining = [] then []
    else
      match pickEarliest remaining with
      | none => [textNode remaining]
      | some (_, p, f) =>
        (if f.pre = [] then [] else [textNode f.pre]) ++
          inlineNodeFor p f :: parseInlineGo fuel f.rest

/-- `parseInlineContent` of adf.go. -/
def parseInlineContent (s : Str) : List ADFNode :=
  parseInlineGo (s.length + 1) s

end Takl

namespace Takl

/-! ## The tree → markup serializer -/

/-- `headingToMarkdown`'s level extraction (default 1). -/
def headingLevel (ats : Attrs) : Int :=
  match (attrGet ats "level".data).bind AttrVal.asNum with
  | some l => l
  | none => 1

/-- `codeBlockToMarkdown` (reads only the text of `text` children). -/
def codeBlockToMarkdown (cs : List ADFNode) (ats : Attrs) : Str :=
  let language := (attrStr ats "language".data).getD []
  let code := (cs.map (fun c => if c.ty = "text".data then c.text else [])).flatten
  "```".data ++ language ++ '\n' :: code ++ "\n```".data

/-- The line-prefixing step of `blockquoteToMarkdown`. -/
def blockquoteWrap (inner : Str) : Str :=
  joinSep "\n".data ((splitCh '\n' (trimSpace inner)).map (fun l => "> ".data ++ l))

/-- The tag wrapping of `panelToMarkdown`. -/
def panelWrap (ats : Attrs) (inner : Str) : Str :=
  let panelType := (attrStr ats "panelType".data).getD "info".data
  "<div data-panel=\"".data ++ panelType ++ "\">\n\n".data ++ trimSpace inner ++
    "\n\n</div>".data

/-- The tag wrapping of `expandToMarkdown`. -/
def expandWrap (ats : Attrs) (nested : Bool) (inner : Str) : Str :=
  let title := (attrStr ats "title".data).getD "Details".data
  let openTag := if nested then "details class=\"nested\"".data else "details".data
  '<' :: openTag ++ ">\n<summary>".data ++ title ++ "</summary>\n\n".data ++
    trimSpace inner ++ "\n</details>".data

/-- `mediaToMarkdown` (attributes only). -/
def mediaToMarkdown (ats : Attrs) : Str :=
  match ats with
  | none => []
  | some _ =>
    let alt := (attrStr ats "alt".data).getD []
    let url :=
      match attrStr ats "url".data with
      | some u => u
      | none =>
        match attrStr ats "src".data with
        | some u => u
        | none =>
          match attrStr ats "id".data with
          | some id => "attachment:".data ++ id
          | none => []
    if url = [] then [] else "![".data ++ alt ++ "](".data ++ url ++ [')']

/-- `mediaGroupToMarkdown` (uses only the `media` children's attributes). -/
def mediaGroupStr (cs : List ADFNode) : Str :=
  joinSep " ".data
    ((cs.filter (fun c => c.ty = "media".data)).map (fun c => mediaToMarkdown c.attrs))

/-- `mediaSingleToMarkdown`: the first `media` child. -/
def mediaSingleStr : List ADFNode → Str
  | [] => []
  | c :: cs => if c.ty = "media".data then mediaToMarkdown c.attrs else mediaSingleStr cs

/-- `emojiToMarkdown`. -/
def emojiToMarkdown (ats : Attrs) : Str :=
  match ats with
  | none => []
  | some _ =>
    match attrStr ats "shortName".data with
    | some sn => sn
    | none => (attrStr ats "text".data).getD []

/-- `mentionToMarkdown`. -/
def mentionToMarkdown (ats : Attrs) : Str :=
  match ats with
  | none => []
  | some _ =>
    match attrStr ats "text".data with
    | some t => '@' :: t
    | none =>
      match attrStr ats "id".data with
      | some id => '@' :: id
      | none => "@user".data

/-- `dateToMarkdown`. -/
def dateToMarkdown (ats : Attrs) : Str :=
  match ats with
  | none => []
  | some _ => (attrStr ats "timestamp".data).getD []

/-- `statusToMarkdown`. -/
def statusToMarkdown (ats : Attrs) : Str :=
  match ats with
  | none => []
  | some _ =>
    let tx := (attrStr ats "text".data).getD "Status".data
    let color := (attrStr ats "color".data).getD "neutral".data
    "<span data-status=\"".data ++ color ++ "\">".data ++ tx ++ "</span>".data

/-- `inlineCardToMarkdown`. -/
def inlineCardToMarkdown (ats : Attrs) : Str :=
  match ats with
  | none => []
  | some _ =>
    let url := (attrStr ats "url".data).getD []
    if url = [] then []
    else
      let title :=
        match (attrGet ats "data".data).bind AttrVal.asObj with
        | some kvs =>
          match (lookupKV kvs "title".data).bind AttrVal.asStr with
          | some t => t
          | none => url
        | none => url
      '[' :: title ++ "](".data ++ url ++ [')']

/-- `" --- |"` repeated once per header cell. -/
def sepCells : Nat → Str
  | 0 => []
  | n + 1 => " --- |".data ++ sepCells n

/-- The pure string-building half of `tableToMarkdown`. -/
def buildTable (hdr : Option (List Str)) (rows : List (List Str)) : Str :=
  let top :=
    match hdr with
    | some h =>
      "| ".data ++ joinSep " | ".data h ++ " |\n".data ++ '|' :: sepCells h.length ++
        "\n".data
    | none => []
  let body := (rows.map (fun row => "| ".data ++ joinSep " | ".data row ++ " |\n".data)).flatten
  dropEnd (top ++ body) "\n".data

mutual

/-- `nodeToMarkdown` of adf.go.  Helpers that in Go receive the node receive
its fields here (see the header comment); the bodies of the one-line wrappers
`listToMarkdown`, `taskListToMarkdown` and `tableToMarkdown` are inlined at
their call sites so that the recursion stays structural (the wrappers are
defined, with their Go names, right after this block). -/
def nodeToMarkdown : ADFNode → Nat → Str
  | .mk ty cs tx mks ats, depth =>
    if ty = "paragraph".data then nodesToMarkdown cs 0
    else if ty = "heading".data then
      repCharInt '#' (headingLevel ats) ++ ' ' :: nodesToMarkdown cs 0
    else if ty = "bulletList".data then dropEnd (listItemsGo cs depth false 0) "\n".data
    else if ty = "orderedList".data then dropEnd (listItemsGo cs depth true 0) "\n".data
    else if ty = "taskList".data then taskItemsGo cs depth 0 cs.length
    else if ty = "listItem".data then listItemStr cs depth true
    else if ty = "codeBlock".data then codeBlockToMarkdown cs ats
    else if ty = "blockquote".data then blockquoteWrap (nodesToMarkdown cs 0)
    else if ty = "rule".data then "---".data
    else if ty = "hardBreak".data then "  \n".data
    else if ty = "table".data then
      buildTable (tableExtract cs false none []).1 (tableExtract cs false none []).2
    else if ty = "panel".data then panelWrap ats (nodesToMarkdown cs 0)
    else if ty = "expand".data then expandWrap ats false (nodesToMarkdown cs 0)
    else if ty = "nestedExpand".data then expandWrap ats true (nodesToMarkdown cs 0)
    else if ty = "mediaGroup".data then mediaGroupStr cs
    else if ty = "mediaSingle".data then mediaSingleStr cs
    else if ty = "mediaInline".data then mediaToMarkdown ats
    else if ty = "emoji".data then emojiToMarkdown ats
    else if ty = "mention".data then mentionToMarkdown ats
    else if ty = "date".data then dateToMarkdown ats
    else if ty = "status".data then statusToMarkdown ats
    else if ty = "inlineCard".data then inlineCardToMarkdown ats
    else if ty = "text".data then applyMarks tx mks
    else nodesToMarkdown cs depth

/-- Concatenation of children, all at the same depth. -/
def nodesToMarkdown : List ADFNode → Nat → Str
  | [], _ => []
  | c :: cs, depth => nodeToMarkdown c depth ++ nodesToMarkdown cs depth

/-- The `listItem` case of `nodeToMarkdown`: a newline before a nested list
child, children rendered at `depth + 1`. -/
def listItemStr : List ADFNode → Nat → Bool → Str
  | [], _, _ => []
  | c :: cs, depth, first =>
    (if !first && (c.ty = "bulletList".data || c.ty = "orderedList".data)
     then ['\n'] else []) ++
      nodeToMarkdown c (depth + 1) ++ listItemStr cs depth false

/-- The `for i, item := range node.Content` loop of `listToMarkdown`:
the prefix is `i+1` of the child index, `listItem` children only. -/
def listItemsGo : List ADFNode → Nat → Bool → Nat → Str
  | [], _, _, _ => []
  | item :: rest, depth, ordered, i =>
    (if item.ty = "listItem".data then
      repChar ' ' (2 * depth) ++
        (if ordered then natToStr (i + 1) ++ ". ".data else "- ".data) ++
        nodeToMarkdown item depth ++ ['\n']
     else []) ++ listItemsGo rest depth ordered (i + 1)

/-- The item loop of `taskListToMarkdown`; a trailing newline after every item
except the last child. -/
def taskItemsGo : List ADFNode → Nat → Nat → Nat → Str
  | [], _, _, _ => []
  | .mk ty cs _ _ ats :: rest, depth, i, total =>
    (if ty = "taskItem".data then
      let state := (attrStr ats "state".data).getD "TODO".data
      let checkbox := if state = "DONE".data then "- [x] ".data else "- [ ] ".data
      repChar ' ' (2 * depth) ++ checkbox ++ nodesToMarkdown cs depth ++
        (if i < total - 1 then ['\n'] else [])
     else []) ++ taskItemsGo rest depth (i + 1) total

/-- The row-extraction loop of `tableToMarkdown` (hasHeader flag, header row,
accumulated data rows). -/
def tableExtract : List ADFNode → Bool → Option (List Str) → List (List Str) →
    (Option (List Str) × List (List Str))
  | [], _, hdr, rows => (hdr, rows)
  | .mk ty rcs _ _ _ :: rest, hasH, hdr, rows =>
    if ty = "tableRow".data then
      let ch := cellsOf rcs hasH
      if ch.1 ≠ [] then
        if ch.2 && hdr.isNone then tableExtract rest false (some ch.1) rows
        else tableExtract rest ch.2 hdr (rows ++ [ch.1])
      else tableExtract rest ch.2 hdr rows
    else tableExtract rest hasH hdr rows

/-- The cell loop inside a table row: cell text with newlines collapsed, and
the hasHeader flag or-ed over `tableHeader` cells. -/
def cellsOf : List ADFNode → Bool → (List Str × Bool)
  | [], h => ([], h)
  | .mk ty ccs _ _ _ :: rest, h =>
    let h1 := h || ty = "tableHeader".data
    let tx := (trimSpace (nodesToMarkdown ccs 0)).map (fun c => if c = '\n' then ' ' else c)
    let pr := cellsOf rest h1
    (tx :: pr.1, pr.2)

end

/-- `listToMarkdown` of adf.go (on the list node's children). -/
def listToMarkdown (items : List ADFNode) (depth : Nat) (ordered : Bool) : Str :=
  listItemsGo items depth ordered 0

/-- `taskListToMarkdown` of adf.go (on the task list's children). -/
def taskListToMarkdown (items : List ADFNode) (depth : Nat) : Str :=
  taskItemsGo items depth 0 items.length

/-- `tableToMarkdown` of adf.go (on the table's children). -/
def tableToMarkdown (cs : List ADFNode) : Str :=
  let hr := tableExtract cs false none []
  buildTable hr.1 hr.2

/-- The document loop of `ADFToMarkdown`: blocks joined by blank lines. -/
def joinBlocks : List ADFNode → Str
  | [] => []
  | [n] => nodeToMarkdown n 0
  | n :: m :: rest => nodeToMarkdown n 0 ++ "\n\n".data ++ joinBlocks (m :: rest)

/-- The serialization half of `ADFToMarkdown`, on an already-decoded document. -/
def adfDocToMarkdown (doc : ADFDocument) : Str :=
  trimSpace (joinBlocks doc.content)

end Takl

namespace Takl

/-! ## The block-level regular expressions of adf.go -/

/-- The tail `\s+(.+)$` shared by the heading and list-item patterns:
`w` is the greedy whitespace run, `r` what follows it.  When everything after
the whitespace is empty, RE2 backtracks one whitespace character into the
group (`.` cannot match a newline, `$` is end of text). -/
def plusTailText (w r : Str) : Option Str :=
  if w = [] then none
  else if r ≠ [] then (if r.contains '\n' then none else some r)
  else
    match w.getLast? with
    | some c => if w.length ≥ 2 && c ≠ '\n' then some [c] else none
    | none => none

/-- `reHeading`: `^(#{1,6})\s+(.+)$`; gives the level and the heading text. -/
def headingMatch (l : Str) : Option (Nat × Str) :=
  let h := (l.takeWhile (fun c => c = '#')).length
  if 1 ≤ h && h ≤ 6 then
    match spanP isReSpace (l.drop h) with
    | (w, r) => (plusTailText w r).map (fun txt => (h, txt))
  else none

/-- `reHorizontalRule`: `^(-{3,}|\*{3,}|_{3,})$`. -/
def hrMatch (t : Str) : Bool :=
  t.length ≥ 3 &&
    (t.all (fun c => c = '-') || t.all (fun c => c = '*') || t.all (fun c => c = '_'))

/-- `reOrderedListItem`: `^(\s*)\d+\.\s+(.+)$`; leading whitespace and item text. -/
def orderedItemMatch (l : Str) : Option (Str × Str) :=
  match spanP isReSpace l with
  | (ws, r1) =>
    match spanP isDigit r1 with
    | ([], _) => none
    | (_ :: _, r2) =>
      match r2 with
      | '.' :: r3 =>
        match spanP isReSpace r3 with
        | (w, r4) => (plusTailText w r4).map (fun txt => (ws, txt))
      | _ => none

/-- `reUnorderedListItem`: `^(\s*)[-*+]\s+(.+)$`. -/
def unorderedItemMatch (l : Str) : Option (Str × Str) :=
  match spanP isReSpace l with
  | (ws, r1) =>
    match r1 with
    | c :: r2 =>
      if c = '-' || c = '*' || c = '+' then
        match spanP isReSpace r2 with
        | (w, r3) => (plusTailText w r3).map (fun txt => (ws, txt))
      else none
    | [] => none

/-- `reTaskListItem`: `^(\s*)-\s+\[([ xX])\]\s+(.+)$`; leading whitespace,
checkbox character and item text. -/
def taskItemMatch (l : Str) : Option (Str × Char × Str) :=
  match spanP isReSpace l with
  | (ws, r1) =>
    match r1 with
    | c :: r2 =>
      if c = '-' then
        match spanP isReSpace r2 with
        | ([], _) => none
        | (_ :: _, r3) =>
          match r3 with
          | d :: b :: e :: r4 =>
            if d = '[' && e = ']' && (b = ' ' || b = 'x' || b = 'X') then
              match spanP isReSpace r4 with
              | (w, r5) => (plusTailText w r5).map (fun txt => (ws, b, txt))
            else none
          | _ => none
      else none
    | [] => none

/-- `reOrderedListStart`: `^\s*\d+\.\s+`. -/
def orderedStartTest (l : Str) : Bool :=
  match spanP isReSpace l with
  | (_, r1) =>
    match spanP isDigit r1 with
    | ([], _) => false
    | (_ :: _, r2) =>
      match r2 with
      | '.' :: r3 => ((spanP isReSpace r3).1 ≠ [] : Bool)
      | _ => false

/-- `reUnorderedListStart`: `^\s*[-*+]\s+`. -/
def unorderedStartTest (l : Str) : Bool :=
  match spanP isReSpace l with
  | (_, r1) =>
    match r1 with
    | c :: r2 => (c = '-' || c = '*' || c = '+') && ((spanP isReSpace r2).1 ≠ [] : Bool)
    | [] => false

/-- `reBlockElement`: `^(#{1,6}\s|[-*+]\s|\d+\.\s|` + "```" + `|>)`. -/
def blockElementTest (l : Str) : Bool :=
  (let h := (l.takeWhile (fun c => c = '#')).length
   1 ≤ h && h ≤ 6 && (l.get? h).any isReSpace) ||
  (match l with
   | c :: d :: _ => (c = '-' || c = '*' || c = '+') && isReSpace d
   | _ => false) ||
  (match spanP isDigit l with
   | ([], _) => false
   | (_ :: _, r) =>
     match r with
     | '.' :: d :: _ => isReSpace d
     | _ => false) ||
  strStarts l "```".data ||
  (match l with
   | c :: _ => c = '>'
   | [] => false)

/-- `reTableSeparator`: `^[\s\-:]+$`. -/
def tableSepTest (t : Str) : Bool :=
  t ≠ [] && t.all (fun c => isReSpace c || c = '-' || c = ':')

/-- `rePanelDiv` at one position: `<div data-panel="([^"]+)">`. -/
def matchPanelAt (s : Str) : Option Str := do
  let r1 ← expLit "<div data-panel=\"".data s
  let (ty, r2) ← spanNE (fun c => c != '"') r1
  let _ ← expLit "\">".data r2
  some ty

/-- `rePanelDiv.FindStringSubmatch`: leftmost occurrence anywhere in the line. -/
def panelDivFind : Str → Option Str
  | [] => none
  | c :: cs =>
    match matchPanelAt (c :: cs) with
    | some g => some g
    | none => panelDivFind cs

/-- `reSummaryTag` at one position: `<summary>([^<]+)</summary>`. -/
def matchSummaryAt (s : Str) : Option Str := do
  let r1 ← expLit "<summary>".data s
  let (txt, r2) ← spanNE (fun c => c != '<') r1
  let _ ← expLit "</summary>".data r2
  some txt

/-- `reSummaryTag.FindStringSubmatch`. -/
def summaryFind : Str → Option Str
  | [] => none
  | c :: cs =>
    match matchSummaryAt (c :: cs) with
    | some g => some g
    | none => summaryFind cs

end Takl

namespace Takl

/-! ## The markup → tree block parsers -/

/-- Go's zero `ADFNode{}` (empty type), returned by `parseTable` / `parsePanel`
when they match nothing. -/
def zeroNode : ADFNode := .mk [] [] [] [] none

def paragraphNode (inline : List ADFNode) : ADFNode :=
  .mk "paragraph".data inline [] [] none

/-- The body loop of `parseCodeBlock`: lines until a ```` ``` ```` prefix,
joined by newlines; reports the body line count and whether a closing fence
was found. -/
def codeLoop : List Str → (Str × Nat × Bool)
  | [] => ([], 0, false)
  | l :: rest =>
    if strStarts l "```".data then ([], 0, true)
    else
      match codeLoop rest with
      | (body, n, closed) => ((if n = 0 then l else l ++ '\n' :: body), n + 1, closed)

/-- `parseCodeBlock` of adf.go (`first` is `lines[start]`). -/
def parseCodeBlock (first : Str) (rest : List Str) : ADFNode × Nat :=
  let language := trimSpace (dropStart first "```".data)
  match codeLoop rest with
  | (body, n, closed) =>
    (.mk "codeBlock".data [textNode body] [] []
       (if language ≠ [] then some [("language".data, AttrVal.s language)] else none),
     if closed then n + 2 else n + 1)

/-- The accumulation loop of `parseBlockquote` (the separating newline is
inserted only when the accumulated content is nonempty, as in Go). -/
def quoteLoop : List Str → Str → (Str × Nat)
  | [], acc => (acc, 0)
  | l :: rest, acc =>
    if strStarts l "> ".data then
      match quoteLoop rest ((if acc ≠ [] then acc ++ ['\n'] else acc) ++ dropStart l "> ".data) with
      | (content, n) => (content, n + 1)
    else (acc, 0)

/-- `parseBlockquote` of adf.go. -/
def parseBlockquote (lines : List Str) : ADFNode × Nat :=
  match quoteLoop lines [] with
  | (content, n) =>
    (.mk "blockquote".data [paragraphNode (parseInlineContent content)] [] [] none, n)

/-- The item loop of `parseTaskList`. -/
def taskLoop : List Str → Nat → (List ADFNode × Nat)
  | [], _ => ([], 0)
  | l :: rest, base =>
    if getIndent l < base then ([], 0)
    else
      match taskItemMatch l with
      | none => ([], 0)
      | some m =>
        if getIndent l = base then
          let state := if m.2.1 = 'x' || m.2.1 = 'X' then "DONE".data else "TODO".data
          let item : ADFNode :=
            .mk "taskItem".data [paragraphNode (parseInlineContent m.2.2)] [] []
              (some [("state".data, AttrVal.s state)])
          match taskLoop rest base with
          | (items, n) => (item :: items, n + 1)
        else ([], 0)

/-- `parseTaskList` of adf.go. -/
def parseTaskList (lines : List Str) : ADFNode × Nat :=
  match lines with
  | [] => (.mk "taskList".data [] [] [] none, 0)
  | l :: _ =>
    match taskLoop lines (getIndent l) with
    | (items, n) => (.mk "taskList".data items [] [] none, n)

/-- Append a nested sublist to a list item's content
(`items[len(items)-1].Content = append(..., sublist)`). -/
def appendChild : ADFNode → ADFNode → ADFNode
  | .mk ty cs tx mks ats, sub => .mk ty (cs ++ [sub]) tx mks ats

/-- The list node wrapper of `parseList` (type, items and, for ordered lists,
the `order: 1` attribute; Go sets `Attrs` only when the map is nonempty). -/
def listNodeOf (ordered : Bool) (items : List ADFNode) : ADFNode :=
  .mk (if ordered then "orderedList".data else "bulletList".data) items [] []
    (if ordered then some [("order".data, AttrVal.n 1)] else none)

/-- The item loop of `parseList`; `base` is the indentation of the first line
of the list.  The recursive `parseList(lines, i, isOrderedSublist)` call for a
nested sublist is inlined (its base is the indentation of its first line).
Fuel decreases on that descent; every loop step also consumes a line, so fuel
`length + 1` never runs out. -/
def listLoop : Nat → List Str → Bool → Nat → (List ADFNode × Nat)
  | 0, _, _, _ => ([], 0)
  | _ + 1, [], _, _ => ([], 0)
  | fuel + 1, l :: rest, ordered, base =>
    let ci := getIndent l
    if ci < base then ([], 0)
    else
      match (if ordered then orderedItemMatch l else unorderedItemMatch l) with
      | none => ([], 0)
      | some m =>
        if ci = base then
          let item0 : ADFNode := .mk "listItem".data [paragraphNode (parseInlineContent m.2)] [] [] none
          match rest with
          | [] => ([item0], 1)
          | next :: _ =>
            if getIndent next > base then
              if orderedStartTest next || unorderedStartTest next then
                match listLoop fuel rest (orderedStartTest next) (getIndent next) with
                | (subItems, c2) =>
                  match listLoop fuel (rest.drop c2) ordered base with
                  | (items, c3) =>
                    (appendChild item0 (listNodeOf (orderedStartTest next) subItems) :: items,
                     1 + c2 + c3)
              else
                match listLoop fuel rest ordered base with
                | (items, c3) => (item0 :: items, 1 + c3)
            else
              match listLoop fuel rest ordered base with
              | (items, c3) => (item0 :: items, 1 + c3)
        else ([], 0)

/-- `parseList` of adf.go (fuelled form). -/
def parseListFu (fuel : Nat) (lines : List Str) (ordered : Bool) : ADFNode × Nat :=
  match lines with
  | [] => (listNodeOf ordered [], 0)
  | l :: _ =>
    match listLoop fuel lines ordered (getIndent l) with
    | (items, n) => (listNodeOf ordered items, n)

/-- `parseList` with the always-sufficient fuel. -/
def parseList (lines : List Str) (ordered : Bool) : ADFNode × Nat :=
  parseListFu (lines.length + 1) lines ordered

/-- The row loop of `parseTable`: contiguous pipe-prefixed (after trimming)
lines; separator lines are skipped. -/
def tableRowsLoop : List Str → (List (List Str) × Nat)
  | [] => ([], 0)
  | l0 :: rest =>
    let line := trimSpace l0
    if strStarts line "|".data then
      let cells := splitCh '|' (trimPipes line)
      let isSep := cells.all (fun c => trimSpace c = [] || tableSepTest (trimSpace c))
      if isSep && cells ≠ [] then
        match tableRowsLoop rest with
        | (rows, n) => (rows, n + 1)
      else
        match tableRowsLoop rest with
        | (rows, n) => (cells.map trimSpace :: rows, n + 1)
    else ([], 0)

def tableHeaderCell (c : Str) : ADFNode :=
  .mk "tableHeader".data [paragraphNode (parseInlineContent c)] [] [] none

def tableDataCell (c : Str) : ADFNode :=
  .mk "tableCell".data [paragraphNode (parseInlineContent c)] [] [] none

def tableRowNode (cells : List ADFNode) : ADFNode :=
  .mk "tableRow".data cells [] [] none

/-- `parseTable` of adf.go: first row is the header, the rest are data;
when no rows were collected the zero node and zero consumption are returned. -/
def parseTable (lines : List Str) : ADFNode × Nat :=
  match tableRowsLoop lines with
  | ([], _) => (zeroNode, 0)
  | (hd :: tl, n) =>
    (.mk "table".data
      (tableRowNode (hd.map tableHeaderCell) :: tl.map (fun row => tableRowNode (row.map tableDataCell)))
      [] [] none, n)

/-- Content accumulation until a closing-tag prefix (`</div>` / `</details>`);
used by `parsePanel` and `parseExpand`. -/
def tagContentLoop (close : Str) : List Str → Str → (Str × Nat)
  | [], acc => (acc, 0)
  | l :: rest, acc =>
    if strStarts l close then (acc, 0)
    else
      match tagContentLoop close rest ((if acc ≠ [] then acc ++ ['\n'] else acc) ++ l) with
      | (content, n) => (content, n + 1)

/-- `parsePanel` of adf.go; `inner` is the recursive `MarkdownToADF` call on
the panel body (its `none` is a diverging inner parse).  The error branches of
the Go code (marshal then unmarshal of a value that was just marshalled) are
unreachable and not modelled. -/
def parsePanel (inner : Str → Option ADFDocument) (first : Str) (rest : List Str) :
    Option (ADFNode × Nat) :=
  match panelDivFind first with
  | none => some (zeroNode, 0)
  | some panelType =>
    match tagContentLoop "</div>".data rest [] with
    | (content, k) =>
      match inner (trimSpace content) with
      | none => none
      | some doc =>
        some (.mk "panel".data doc.content [] []
          (some [("panelType".data, AttrVal.s panelType)]), k + 2)

/-- The summary scan of `parseExpand`: skip lines not containing `<summary>`;
on the first one that does, extract the title group.  Returns `none` when the
input ends first; the count includes the summary line when found. -/
def summaryScan : List Str → (Option (Option Str) × Nat)
  | [] => (none, 0)
  | l :: rest =>
    if containsSub l "<summary>".data then (some (summaryFind l), 1)
    else
      match summaryScan rest with
      | (r, n) => (r, n + 1)

/-- `parseExpand` of adf.go. -/
def parseExpand (inner : Str → Option ADFDocument) (first : Str) (rest : List Str) :
    Option (ADFNode × Nat) :=
  let nested := containsSub first "nested".data
  let nodeType := if nested then "nestedExpand".data else "expand".data
  match summaryScan rest with
  | (found, k) =>
    let title := match found with
      | some (some t) => t
      | _ => "Details".data
    match tagContentLoop "</details>".data (rest.drop k) [] with
    | (content, m) =>
      match inner (trimSpace content) with
      | none => none
      | some doc =>
        some (.mk nodeType doc.content [] []
          (some [("title".data, AttrVal.s title)]), k + m + 2)

/-- The accumulation loop of `parseParagraph`: the hard-break check
`strings.HasSuffix(text, "  ")` looks at the accumulated text. -/
def paraLoop : List Str → Str → (Str × Nat)
  | [], acc => (acc, 0)
  | l :: rest, acc =>
    if trimSpace l = [] then (acc, 0)
    else if blockElementTest l then (acc, 0)
    else
      match paraLoop rest (acc ++ (if strStarts acc.reverse "  ".data then ['\n'] else [' ']) ++ l) with
      | (content, n) => (content, n + 1)

/-- `parseParagraph` of adf.go. -/
def parseParagraph (first : Str) (rest : List Str) : ADFNode × Nat :=
  match paraLoop rest first with
  | (content, n) => (paragraphNode (parseInlineContent content), n + 1)

/-- The per-line dispatch of `MarkdownToADF`'s loop body, in source order;
`inner` is the recursive full parse used by panels and expands. -/
def blockDispatch (inner : Str → Option ADFDocument) : List Str → Option (ADFNode × Nat)
  | [] => some (zeroNode, 0)
  | l :: rest =>
    if strStarts l "```".data then some (parseCodeBlock l rest)
    else
      match headingMatch l with
      | some hm =>
        some (.mk "heading".data (parseInlineContent hm.2) [] []
          (some [("level".data, AttrVal.n (Int.ofNat hm.1))]), 1)
      | none =>
        if hrMatch (trimSpace l) then some (.mk "rule".data [] [] [] none, 1)
        else if strStarts (trimSpace l) "|".data && (parseTable (l :: rest)).1.ty ≠ [] then
          some (parseTable (l :: rest))
        else if strStarts l "<div data-panel=".data then parsePanel inner l rest
        else if strStarts l "<details".data then parseExpand inner l rest
        else if strStarts l "> ".data then some (parseBlockquote (l :: rest))
        else if (taskItemMatch l).isSome then some (parseTaskList (l :: rest))
        else if unorderedStartTest l then some (parseList (l :: rest) false)
        else if orderedStartTest l then some (parseList (l :: rest) true)
        else some (parseParagraph l rest)

def docOfBlocks (ns : List ADFNode) : ADFDocument := ⟨"doc".data, 1, ns⟩

/-- The `MarkdownToADF` entry: empty input gives the canonical empty document,
otherwise the line loop runs on the split lines. -/
def mdParseWith (pb : List Str → Option (List ADFNode)) (s : Str) : Option ADFDocument :=
  if s = [] then some (docOfBlocks [])
  else (pb (splitCh '\n' s)).map docOfBlocks

/-- The line loop of `MarkdownToADF`: skip blank lines, dispatch, advance by
the consumed count.  A zero-consumption dispatch leaves the state unchanged,
so in Go the loop never terminates; here the fuel drains and the result is
`none` for every fuel. -/
def parseBlocksFu : Nat → List Str → Option (List ADFNode)
  | 0, _ => none
  | _ + 1, [] => some []
  | fuel + 1, l :: rest =>
    if trimSpace l = [] then parseBlocksFu fuel rest
    else
      match blockDispatch (mdParseWith (parseBlocksFu fuel)) (l :: rest) with
      | none => none
      | some nc =>
        match parseBlocksFu fuel ((l :: rest).drop nc.2) with
        | none => none
        | some nodes => some (nc.1 :: nodes)

/-- `MarkdownToADF` of adf.go.  The fuel `lines + 1` is sufficient whenever
every dispatch consumes at least one line; the result is `none` exactly when
the Go loop diverges (a dispatch that consumes zero lines repeats forever).
The `json.Marshal` at the end of the Go function cannot fail for this struct
type and is the identity in this model. -/
def MarkdownToADF (s : Str) : Option ADFDocument :=
  mdParseWith (parseBlocksFu ((splitCh '\n' s).length + 1)) s

end Takl

namespace Takl

/-! ## The wire boundary: JSON values and `json.Unmarshal` into the structs -/

/-- A JSON value tree. Numbers are modelled as integers (see header). -/
inductive JValue where
  | null
  | b (v : Bool)
  | num (v : Int)
  | str (v : Str)
  | arr (vs : List JValue)
  | obj (kvs : List (Str × JValue))

mutual

/-- Unmarshal of an arbitrary JSON value into a Go `interface{}`
(always succeeds). -/
def decodeAttrVal : JValue → AttrVal
  | .null => .nullv
  | .b v => .b v
  | .num v => .n v
  | .str v => .s v
  | .arr vs => .arr (decodeAttrVals vs)
  | .obj kvs => .obj (decodeAttrKVs kvs)

def decodeAttrVals : List JValue → List AttrVal
  | [] => []
  | v :: vs => decodeAttrVal v :: decodeAttrVals vs

def decodeAttrKVs : List (Str × JValue) → List (Str × AttrVal)
  | [] => []
  | (k, v) :: rest => (k, decodeAttrVal v) :: decodeAttrKVs rest

end

/-- Map insertion with overwrite (later duplicate JSON keys win, as in
`encoding/json`). -/
def kvUpsert (acc : List (Str × AttrVal)) (k : Str) (v : AttrVal) :
    List (Str × AttrVal) :=
  if (lookupKV acc k).isSome then acc.map (fun p => if p.1 = k then (k, v) else p)
  else acc ++ [(k, v)]

/-- Unmarshal of a JSON object into `map[string]interface{}`. -/
def attrMapOf : List (Str × JValue) → List (Str × AttrVal) → List (Str × AttrVal)
  | [], acc => acc
  | (k, v) :: rest, acc => attrMapOf rest (kvUpsert acc k (decodeAttrVal v))

/-- Unmarshal into a `string` struct field (`null` leaves the zero value). -/
def decodeStringField : JValue → Option Str
  | .null => some []
  | .str v => some v
  | _ => none

/-- Unmarshal into an `int` struct field. -/
def decodeIntField : JValue → Option Int
  | .null => some 0
  | .num v => some v
  | _ => none

/-- Unmarshal into the `Attrs map[string]interface{}` field
(`null` gives the nil map). -/
def decodeAttrsField : JValue → Option Attrs
  | .null => some none
  | .obj kvs => some (some (attrMapOf kvs []))
  | _ => none

/-- Unmarshal into an `ADFMark` (fields `type`, `attrs`; others ignored). -/
def decodeMarkFields : List (Str × JValue) → ADFMark → Option ADFMark
  | [], acc => some acc
  | (k, v) :: rest, acc =>
    if k = "type".data then
      match decodeStringField v with
      | some t => decodeMarkFields rest ⟨t, acc.attrs⟩
      | none => none
    else if k = "attrs".data then
      match decodeAttrsField v with
      | some a => decodeMarkFields rest ⟨acc.ty, a⟩
      | none => none
    else decodeMarkFields rest acc

def decodeMark : JValue → Option ADFMark
  | .null => some ⟨[], none⟩
  | .obj kvs => decodeMarkFields kvs ⟨[], none⟩
  | _ => none

def decodeMarks : List JValue → Option (List ADFMark)
  | [] => some []
  | v :: vs =>
    match decodeMark v with
    | none => none
    | some m =>
      match decodeMarks vs with
      | none => none
      | some ms => some (m :: ms)

/-- Unmarshal into the `[]ADFMark` field. -/
def decodeMarksField : JValue → Option (List ADFMark)
  | .null => some []
  | .arr vs => decodeMarks vs
  | _ => none

def ADFNode.withTy : ADFNode → Str → ADFNode
  | .mk _ cs tx mks ats, t => .mk t cs tx mks ats

def ADFNode.withContent : ADFNode → List ADFNode → ADFNode
  | .mk t _ tx mks ats, cs => .mk t cs tx mks ats

def ADFNode.withText : ADFNode → Str → ADFNode
  | .mk t cs _ mks ats, tx => .mk t cs tx mks ats

def ADFNode.withMarks : ADFNode → List ADFMark → ADFNode
  | .mk t cs tx _ ats, mks => .mk t cs tx mks ats

def ADFNode.withAttrs : ADFNode → Attrs → ADFNode
  | .mk t cs tx mks _, a => .mk t cs tx mks a

mutual

/-- Unmarshal into an `ADFNode` (`null` gives the zero node). -/
def decodeNode : JValue → Option ADFNode
  | .null => some zeroNode
  | .obj kvs => decodeNodeFields kvs zeroNode
  | _ => none

def decodeNodeFields : List (Str × JValue) → ADFNode → Option ADFNode
  | [], acc => some acc
  | (k, v) :: rest, acc =>
    if k = "type".data then
      match decodeStringField v with
      | some t => decodeNodeFields rest (acc.withTy t)
      | none => none
    else if k = "content".data then
      match v with
      | .null => decodeNodeFields rest (acc.withContent [])
      | .arr vs =>
        match decodeNodes vs with
        | some ns => decodeNodeFields rest (acc.withContent ns)
        | none => none
      | _ => none
    else if k = "text".data then
      match decodeStringField v with
      | some t => decodeNodeFields rest (acc.withText t)
      | none => none
    else if k = "marks".data then
      match decodeMarksField v with
      | some ms => decodeNodeFields rest (acc.withMarks ms)
      | none => none
    else if k = "attrs".data then
      match decodeAttrsField v with
      | some a => decodeNodeFields rest (acc.withAttrs a)
      | none => none
    else decodeNodeFields rest acc

def decodeNodes : List JValue → Option (List ADFNode)
  | [] => some []
  | v :: vs =>
    match decodeNode v with
    | none => none
    | some n =>
      match decodeNodes vs with
      | none => none
      | some ns => some (n :: ns)

end

/-- Unmarshal into the `[]ADFNode` content field. -/
def decodeContentField : JValue → Option (List ADFNode)
  | .null => some []
  | .arr vs => decodeNodes vs
  | _ => none

def decodeDocFields : List (Str × JValue) → ADFDocument → Option ADFDocument
  | [], acc => some acc
  | (k, v) :: rest, acc =>
    if k = "type".data then
      match decodeStringField v with
      | some t => decodeDocFields rest ⟨t, acc.version, acc.content⟩
      | none => none
    else if k = "version".data then
      match decodeIntField v with
      | some n => decodeDocFields rest ⟨acc.ty, n, acc.content⟩
      | none => none
    else if k = "content".data then
      match decodeContentField v with
      | some ns => decodeDocFields rest ⟨acc.ty, acc.version, ns⟩
      | none => none
    else decodeDocFields rest acc

/-- `json.Unmarshal(adfJSON, &doc)` for a syntactically valid JSON value:
`none` is a non-nil error. -/
def decodeDoc : JValue → Option ADFDocument
  | .null => some ⟨[], 0, []⟩
  | .obj kvs => decodeDocFields kvs ⟨[], 0, []⟩
  | _ => none

/-- The input of `ADFToMarkdown`: empty bytes, bytes that are not valid JSON,
or a JSON value.  (The byte-level check `string(adfJSON) == "null"` is
modelled on the value: bytes spelling `null` in any other way decode to the
zero document, whose serialization is the same empty string.) -/
inductive JSONInput where
  | empty
  | malformed
  | value (v : JValue)

/-- `ADFToMarkdown` of adf.go: `none` is a returned non-nil error. -/
def ADFToMarkdown : JSONInput → Option Str
  | .empty => some []
  | .malformed => none
  | .value .null => some []
  | .value v =>
    match decodeDoc v with
    | none => none
    | some doc => some (adfDocToMarkdown doc)

/-- "The input fails to unmarshal as JSON into the document structure":
malformed bytes and decode failures (empty bytes are also not valid JSON,
but `ADFToMarkdown` short-circuits before unmarshalling them). -/
def unmarshalFails : JSONInput → Prop
  | .empty => True
  | .malformed => True
  | .value v => decodeDoc v = none

end Takl

namespace Takl

/-! ## Claim C1: markup idempotence of parse-after-serialize -/

/-- Document whose serialization is not a fixed point of the
serialize-parse-serialize pipeline: a paragraph with a newline inside a text
leaf serializes to two lines, which re-parse as one spaced paragraph. -/
def c1CounterDoc : ADFDocument := ⟨"doc".data, 1, [paragraphNode [textNode "a\nb".data]]⟩

/-- Reparse of `"a\nb"`: one paragraph, the two lines joined with a space. -/
def c1ReparsedDoc : ADFDocument := ⟨"doc".data, 1, [paragraphNode [textNode "a b".data]]⟩

/-- C1 fails as stated: for the document `c1CounterDoc` the serialization is
`"a\nb"`, parsing it back yields `c1ReparsedDoc`, and re-serializing gives
`"a b"`, which differs from the original markup. -/
theorem C1_idempotence_counterexample :
    adfDocToMarkdown c1CounterDoc = "a\nb".data ∧
    MarkdownToADF "a\nb".data = some c1ReparsedDoc ∧
    adfDocToMarkdown c1ReparsedDoc = "a b".data ∧
    adfDocToMarkdown c1ReparsedDoc ≠ adfDocToMarkdown c1CounterDoc :=
  ⟨rfl, rfl, rfl, by decide⟩

/-- Scenario-1 document of the spec: a paragraph with a plain run, a bold run
and a plain run. -/
def c1BoldDoc : ADFDocument :=
  ⟨"doc".data, 1, [paragraphNode [textNode "This is ".data,
     textNodeM "bold".data [⟨"strong".data, none⟩], textNode " text".data]]⟩

/-- C1 amended: serialize-parse-serialize is the identity on the markup of
representative documents (here the spec's scenario-1 document, serialized to
`"This is **bold** text"`), though not of every tree — a text leaf containing
a newline breaks it (see the counterexample). -/
theorem C1_idempotence_representative :
    adfDocToMarkdown c1BoldDoc = "This is **bold** text".data ∧
    (MarkdownToADF (adfDocToMarkdown c1BoldDoc)).map adfDocToMarkdown =
      some (adfDocToMarkdown c1BoldDoc) :=
  ⟨rfl, rfl⟩

/-! ## Claim C2: totality of `MarkdownToADF` -/

/-- Input `"- "` (dash, space): `reUnorderedListStart` matches it, so the
dispatch calls `parseList`, but `reUnorderedListItem` requires nonempty item
text and does not match, so `parseList` consumes zero lines. -/
def dashSpace : Str := "- ".data

/-- C2 fails on the code: on the input `"- "` the block-dispatch loop of
`MarkdownToADF` makes no progress — `parseList` returns zero consumed lines
and the loop index never advances — so the Go function loops forever
(appending empty `bulletList` nodes).  In the fuelled model the loop runs out
of every fuel. -/
theorem C2_totality_failing_input :
    (∀ fuel, parseBlocksFu fuel [dashSpace] = none) ∧
    MarkdownToADF dashSpace = none := by
  constructor
  · intro fuel
    induction fuel with
    | zero => rfl
    | succ n ih =>
      have hstep : parseBlocksFu (n + 1) [dashSpace] =
          (match parseBlocksFu n [dashSpace] with
           | none => none
           | some ns => some (listNodeOf false [] :: ns)) := rfl
      rw [hstep, ih]
  · rfl

/-! ## Claim C5: the nested-list scenario -/

/-- Four-line nested unordered list of the spec's scenario 2. -/
def c5Input : Str :=
  "- Parent item 1\n  - Child item 1\n  - Child item 2\n- Parent item 2".data

/-- Parse result of `c5Input`: one bullet list, two top-level items, the
first carrying the nested two-item bullet list after its paragraph. -/
def c5Doc : ADFDocument :=
  ⟨"doc".data, 1, [listNodeOf false
    [ADFNode.mk "listItem".data
       [paragraphNode [textNode "Parent item 1".data],
        listNodeOf false
          [ADFNode.mk "listItem".data [paragraphNode [textNode "Child item 1".data]] [] [] none,
           ADFNode.mk "listItem".data [paragraphNode [textNode "Child item 2".data]] [] [] none]]
       [] [] none,
     ADFNode.mk "listItem".data [paragraphNode [textNode "Parent item 2".data]] [] [] none]]⟩

/-- C5 holds: the four-line input parses to exactly `c5Doc` (a bulletList with
two top-level listItems, the first with a nested two-item bulletList appended
after its paragraph), and serializing `c5Doc` reproduces the input
byte-for-byte. -/
theorem C5_nested_list_roundtrip :
    MarkdownToADF c5Input = some c5Doc ∧ adfDocToMarkdown c5Doc = c5Input :=
  ⟨rfl, rfl⟩

end Takl

namespace Takl

/-! ## Claim C6: ordered-list serialization -/

/-- One well-formed list item with text `a`. -/
def c6Item : ADFNode := .mk "listItem".data [paragraphNode [textNode "a".data]] [] [] none

/-- Ordered list whose first child is not a `listItem`: the loop of
`listToMarkdown` numbers by the child index `i+1`, not by the rendered item
position. -/
def c6MixedList : ADFNode :=
  .mk "orderedList".data [paragraphNode [], c6Item] [] [] (some [("order".data, AttrVal.n 1)])

/-- C6 fails as stated: serializing `c6MixedList` at depth 0 renders its only
item (the 1st rendered item) with prefix `"2. "` — the child index — rather
than the claimed positional `"1. "`. -/
theorem C6_counterexample :
    nodeToMarkdown c6MixedList 0 = "2. a".data ∧ "2. a".data ≠ "1. a".data :=
  ⟨rfl, by decide⟩

/-- Rendering of an ordered list as the claim describes it: the `k`-th item on
its own line, indented `2 × depth` spaces, prefixed `k. `. -/
def orderedLinesSpec : List ADFNode → Nat → Nat → Str
  | [], _, _ => []
  | item :: rest, depth, k =>
    repChar ' ' (2 * depth) ++ natToStr k ++ ". ".data ++ nodeToMarkdown item depth ++
      '\n' :: orderedLinesSpec rest depth (k + 1)

theorem listItemsGo_spec (depth : Nat) :
    ∀ (items : List ADFNode) (i : Nat), (∀ n ∈ items, n.ty = "listItem".data) →
      listItemsGo items depth true i = orderedLinesSpec items depth (i + 1) := by
  intro items
  induction items with
  | nil => intro i _; rfl
  | cons item rest ih =>
    intro i h
    have hty : item.ty = "listItem".data := h item (List.mem_cons_self item rest)
    show (if item.ty = "listItem".data then
        repChar ' ' (2 * depth) ++ (natToStr (i + 1) ++ ". ".data) ++
          nodeToMarkdown item depth ++ ['\n']
      else []) ++ listItemsGo rest depth true (i + 1) =
      orderedLinesSpec (item :: rest) depth (i + 1)
    rw [if_pos hty, ih (i + 1) (fun n hn => h n (List.mem_cons_of_mem item hn))]
    show repChar ' ' (2 * depth) ++ (natToStr (i + 1) ++ ". ".data) ++
        nodeToMarkdown item depth ++ ['\n'] ++ orderedLinesSpec rest depth (i + 1 + 1) =
      repChar ' ' (2 * depth) ++ natToStr (i + 1) ++ ". ".data ++ nodeToMarkdown item depth ++
        '\n' :: orderedLinesSpec rest depth (i + 1 + 1)
    simp [List.append_assoc]

/-- C6 amended: for an `orderedList` node all of whose children are
`listItem`s, serialization at depth `d` renders the `k`-th item (counting from
1) on its own line with exactly `2 × d` spaces of indent and the prefix
`k. `, with one trailing newline removed at the end; any attributes of the
list node — in particular an `order`/start attribute — are never consulted
(the result does not depend on `ats`).  In general the code numbers by child
index over all children, which coincides with the positional `k` only when
every child is a `listItem` (see the counterexample). -/
theorem C6_positional_numbering (items : List ADFNode) (depth : Nat) (ats : Attrs)
    (h : ∀ n ∈ items, n.ty = "listItem".data) :
    nodeToMarkdown (.mk "orderedList".data items [] [] ats) depth =
      dropEnd (orderedLinesSpec items depth 1) "\n".data := by
  have h0 : nodeToMarkdown (.mk "orderedList".data items [] [] ats) depth =
      dropEnd (listItemsGo items depth true 0) "\n".data := rfl
  rw [h0, listItemsGo_spec depth items 0 h]

/-- Witness for C6: a singleton ordered list at depth 1 carrying an
`order: 5` attribute still renders as `"  1. a"`. -/
theorem C6_positional_numbering_witness :
    nodeToMarkdown (.mk "orderedList".data [c6Item] [] [] (some [("order".data, AttrVal.n 5)])) 1 =
      "  1. a".data := by
  have h := C6_positional_numbering [c6Item] 1 (some [("order".data, AttrVal.n 5)])
    (by intro n hn; rw [List.mem_singleton.mp hn]; rfl)
  rw [h]; rfl

end Takl

namespace Takl

/-! ## Claim C3: the fixed wrap order of `applyMarks` -/

/-- C3 holds: `applyMarks` is extensionally the fold of the spec's static
ordered wrap table — inline-code, subscript/superscript, strikethrough,
underline, text-color, bordered, italic, bold, link, innermost to outermost —
and a text node bearing exactly the bold and italic marks (in either order)
renders as the single triple-delimiter form `***text***`. -/
theorem C3_mark_wrap_order :
    ∀ (text : Str) (marks : List ADFMark),
      applyMarks text marks = applyMarksSpec text marks ∧
      applyMarks text [⟨"strong".data, none⟩, ⟨"em".data, none⟩] =
        "***".data ++ text ++ "***".data ∧
      applyMarks text [⟨"em".data, none⟩, ⟨"strong".data, none⟩] =
        "***".data ++ text ++ "***".data := by
  intro text marks
  refine ⟨?_, ?_, ?_⟩
  · cases marks with
    | nil => rfl
    | cons m ms => rfl
  · simp [applyMarks, wrapLink, wrapStrong, wrapEm, wrapBorder, wrapTextColor,
      wrapUnderline, wrapStrike, wrapSubsup, wrapCode, collectMarks, collectMark,
      initMarkState]
  · simp [applyMarks, wrapLink, wrapStrong, wrapEm, wrapBorder, wrapTextColor,
      wrapUnderline, wrapStrike, wrapSubsup, wrapCode, collectMarks, collectMark,
      initMarkState]

end Takl

namespace Takl

/-! ## Claim C10: the serializer's output carries no edge whitespace -/

theorem trimSpace_idem (l : Str) : trimSpace (trimSpace l) = trimSpace l := by
  unfold trimSpace dropEndWhile
  have hstep1 : List.dropWhile isGoSpace
      ((List.dropWhile isGoSpace (List.dropWhile isGoSpace l).reverse).reverse) =
      (List.dropWhile isGoSpace (List.dropWhile isGoSpace l).reverse).reverse := by
    cases htne : (List.dropWhile isGoSpace (List.dropWhile isGoSpace l).reverse).reverse with
    | nil => simp
    | cons c cs =>
      have hsuf : (c :: cs).reverse <:+ (List.dropWhile isGoSpace l).reverse := by
        rw [← htne]
        simpa using @List.dropWhile_suffix Char ((List.dropWhile isGoSpace l).reverse) isGoSpace
      have hpre : c :: cs <+: List.dropWhile isGoSpace l := by
        rw [← List.reverse_suffix]
        simpa using hsuf
      obtain ⟨r, hr⟩ := hpre
      have hne : List.dropWhile isGoSpace l ≠ [] := by
        rw [← hr]; simp
      have hc : isGoSpace ((List.dropWhile isGoSpace l).head hne) = false :=
        List.head_dropWhile_not isGoSpace l hne
      have hhead : (List.dropWhile isGoSpace l).head hne = c := by
        have h1 : (List.dropWhile isGoSpace l).head? = some c := by
          rw [← hr]; rfl
        have h2 := List.head?_eq_head hne
        rw [h1] at h2
        exact (Option.some_inj.mp h2).symm
      rw [hhead] at hc
      simp [List.dropWhile_cons, hc]
  rw [hstep1, List.reverse_reverse, List.dropWhile_idempotent]

/-- C10 holds: whenever `ADFToMarkdown` succeeds, the returned markup equals
its own whitespace trim (no leading or trailing whitespace), for every input
— the serializer ends in `strings.TrimSpace`, and `trimSpace` is idempotent. -/
theorem C10_output_trimmed :
    ∀ (inp : JSONInput) (s : Str), ADFToMarkdown inp = some s → trimSpace s = s := by
  intro inp s h
  cases inp with
  | empty =>
    have : s = [] := by simpa [ADFToMarkdown] using h.symm
    rw [this]; rfl
  | malformed => simp [ADFToMarkdown] at h
  | value v =>
    cases v with
    | null =>
      have : s = [] := by simpa [ADFToMarkdown] using h.symm
      rw [this]; rfl
    | b x =>
      have hval : ADFToMarkdown (.value (.b x)) = none := rfl
      rw [hval] at h; simp at h
    | num x =>
      have hval : ADFToMarkdown (.value (.num x)) = none := rfl
      rw [hval] at h; simp at h
    | str x =>
      have hval : ADFToMarkdown (.value (.str x)) = none := rfl
      rw [hval] at h; simp at h
    | arr vs =>
      have hval : ADFToMarkdown (.value (.arr vs)) = none := rfl
      rw [hval] at h; simp at h
    | obj kvs =>
      have hval : ADFToMarkdown (.value (.obj kvs)) =
          (match decodeDoc (.obj kvs) with
           | none => none
           | some doc => some (adfDocToMarkdown doc)) := rfl
      rw [hval] at h
      cases hd : decodeDoc (.obj kvs) with
      | none => rw [hd] at h; simp at h
      | some doc =>
        rw [hd] at h
        have hs : s = adfDocToMarkdown doc := by
          have := h
          simp at this
          exact this.symm
        rw [hs]
        show trimSpace (trimSpace (joinBlocks doc.content)) = trimSpace (joinBlocks doc.content)
        exact trimSpace_idem _

/-- Witness input for C10: the JSON document `{"type":"doc","version":1,
"content":[{"type":"paragraph","content":[{"type":"text","text":"hi"}]}]}`. -/
def c10Inp : JSONInput :=
  .value (.obj [("type".data, .str "doc".data), ("version".data, .num 1),
    ("content".data, .arr [.obj [("type".data, .str "paragraph".data),
      ("content".data, .arr [.obj [("type".data, .str "text".data),
        ("text".data, .str "hi".data)]])]])])

/-- Witness for C10 at a concrete successful conversion. -/
theorem C10_output_trimmed_witness :
    ADFToMarkdown c10Inp = some "hi".data ∧ trimSpace "hi".data = "hi".data :=
  ⟨rfl, C10_output_trimmed c10Inp "hi".data rfl⟩

end Takl

namespace Takl

/-! ## Claim C7: the error behaviour of `ADFToMarkdown` -/

/-- JSON input `{"type":"doc","version":1,"content":[{"type":"heading",
"attrs":{"level":-1}}]}`: it unmarshals without error, but serializing it
reaches `strings.Repeat("#", -1)`, which panics in Go — an abnormal
termination that is neither of the two error classes the claim allows. -/
def c7Json : JValue :=
  .obj [("type".data, .str "doc".data), ("version".data, .num 1),
    ("content".data, .arr [.obj [("type".data, .str "heading".data),
      ("attrs".data, .obj [("level".data, .num (-1))])]])]

/-- The document `c7Json` decodes to. -/
def c7Doc : ADFDocument :=
  ⟨"doc".data, 1, [.mk "heading".data [] [] [] (some [("level".data, AttrVal.n (-1))])]⟩

/-- C7 is contradicted by the code: `c7Json` unmarshals cleanly (so by the
claim the conversion must succeed), its only node is a heading whose level
attribute extracts as `-1`, and the `strings.Repeat` call that
`headingToMarkdown` performs on that count panics (modelled as `none`), so
`ADFToMarkdown` neither returns a value nor a non-nil error on it. -/
theorem C7_decode_panic_input :
    decodeDoc c7Json = some c7Doc ∧
    headingLevel (some [("level".data, AttrVal.n (-1))]) = -1 ∧
    stringsRepeatGo '#' (headingLevel (some [("level".data, AttrVal.n (-1))])) = none :=
  ⟨rfl, rfl, by decide⟩

/-! ## Claim C8: fenced code block parsing -/

theorem codeLoop_spec : ∀ rest : List Str,
    codeLoop rest =
      (joinSep "\n".data (rest.takeWhile (fun l => !strStarts l "```".data)),
       (rest.takeWhile (fun l => !strStarts l "```".data)).length,
       rest.any (fun l => strStarts l "```".data)) := by
  intro rest
  induction rest with
  | nil => rfl
  | cons l rest ih =>
    by_cases hl : strStarts l "```".data = true
    · simp [codeLoop, hl, List.takeWhile_cons, List.any_cons, joinSep]
    · have hl' : strStarts l "```".data = false := by
        cases hsb : strStarts l "```".data
        · rfl
        · exact absurd hsb hl
      rw [codeLoop, if_neg hl, ih]
      cases htw : (rest.takeWhile (fun l => !strStarts l "```".data)) with
      | nil => simp [List.takeWhile_cons, List.any_cons, hl', joinSep, htw]
      | cons t ts => simp [List.takeWhile_cons, List.any_cons, hl', joinSep, htw]

/-- C8 holds: on a line sequence whose first line starts with a fence,
`parseCodeBlock` copies the following lines verbatim (joined by newlines,
nothing unescaped) into a single text child, stopping at the first line that
starts with a fence; it consumes that closing fence when present, and when no
closing fence exists it consumes everything to the end of input, still
returning a `codeBlock` node (no failure path exists — the function is
total). -/
theorem C8_code_block (first : Str) (rest : List Str)
    (h : strStarts first "```".data = true) :
    parseCodeBlock first rest =
      (ADFNode.mk "codeBlock".data
        [textNode (joinSep "\n".data (rest.takeWhile (fun l => !strStarts l "```".data)))]
        [] []
        (if trimSpace (dropStart first "```".data) ≠ []
         then some [("language".data, AttrVal.s (trimSpace (dropStart first "```".data)))]
         else none),
       (rest.takeWhile (fun l => !strStarts l "```".data)).length +
         (if rest.any (fun l => strStarts l "```".data) then 2 else 1)) := by
  unfold parseCodeBlock
  rw [codeLoop_spec]
  cases hany : rest.any (fun l => strStarts l "```".data) <;> simp [hany]

/-- Witness for C8: a fenced `go` block with one body line and a closing
fence consumes three lines. -/
theorem C8_code_block_witness :
    parseCodeBlock "```go".data ["x = 1".data, "```".data] =
      (ADFNode.mk "codeBlock".data [textNode "x = 1".data] [] []
        (some [("language".data, AttrVal.s "go".data)]), 3) := by
  have h := C8_code_block "```go".data ["x = 1".data, "```".data] (by decide)
  rw [h]; rfl

end Takl

namespace Takl

/-! ## Claim C9: task-list recognition -/

theorem isReSpace_elim {c : Char} (h : isReSpace c = true) :
    c = '\t' ∨ c = '\n' ∨ c = Char.ofNat 0x0c ∨ c = '\r' ∨ c = ' ' := by
  simp only [isReSpace, Bool.or_eq_true, decide_eq_true_eq] at h
  tauto

theorem isReSpace_isGoSpace {c : Char} (h : isReSpace c = true) : isGoSpace c = true := by
  rcases isReSpace_elim h with h | h | h | h | h <;> subst h <;> decide

theorem isReSpace_ne {c : Char} (h : isReSpace c = true) :
    c ≠ '`' ∧ c ≠ '#' ∧ c ≠ '<' ∧ c ≠ '>' ∧ c ≠ '|' ∧ c ≠ '-' := by
  rcases isReSpace_elim h with h | h | h | h | h <;> subst h <;> exact ⟨by decide, by decide,
    by decide, by decide, by decide, by decide⟩

/-- Shape of a line matched by `reTaskListItem`: optional whitespace, a dash,
mandatory whitespace, then a bracket. -/
theorem taskItemMatch_shape {l : Str} {m : Str × Char × Str}
    (h : taskItemMatch l = some m) :
    ∃ r2, l.dropWhile isReSpace = '-' :: r2 ∧
      r2.takeWhile isReSpace ≠ [] ∧ '[' ∈ r2 := by
  unfold taskItemMatch spanP at h
  cases hr1 : l.dropWhile isReSpace with
  | nil => rw [hr1] at h; simp at h
  | cons c r2 =>
    rw [hr1] at h
    simp only at h
    by_cases hc : c = '-'
    case neg => rw [if_neg hc] at h; simp at h
    case pos =>
      subst hc
      rw [if_pos rfl] at h
      refine ⟨r2, rfl, ?_, ?_⟩
      · cases htw : r2.takeWhile isReSpace with
        | nil => rw [htw] at h; simp at h
        | cons x xs => simp
      · cases htw : r2.takeWhile isReSpace with
        | nil => rw [htw] at h; simp at h
        | cons x xs =>
          rw [htw] at h
          cases hdw : r2.dropWhile isReSpace with
          | nil => rw [hdw] at h; simp at h
          | cons d ds =>
            rw [hdw] at h
            cases ds with
            | nil => simp at h
            | cons b es =>
              cases es with
              | nil => simp at h
              | cons e r4 =>
                have hdbr : d = '[' := by
                  by_contra hd
                  have h2 : (if (decide (d = '[') && decide (e = ']') &&
                      (decide (b = ' ') || decide (b = 'x') || decide (b = 'X'))) = true then
                      Option.map (fun txt => (List.takeWhile isReSpace l, b, txt))
                        (plusTailText (List.takeWhile isReSpace r4)
                          (List.dropWhile isReSpace r4))
                    else none) = some m := h
                  rw [if_neg (by simp [hd])] at h2
                  exact absurd h2 (by simp)
                have hmemd : d ∈ r2 := by
                  have hmem : d ∈ r2.dropWhile isReSpace := by
                    rw [hdw]; exact List.mem_cons_self d (b :: e :: r4)
                  exact (List.dropWhile_suffix isReSpace).subset hmem
                rw [hdbr] at hmemd
                exact hmemd

end Takl

namespace Takl

theorem taskLine_head {l : Str} {r2 : List Char}
    (hdw : l.dropWhile isReSpace = '-' :: r2) :
    ∃ c, l.head? = some c ∧ (c = '-' ∨ isReSpace c = true) := by
  cases l with
  | nil => simp at hdw
  | cons c cs =>
    refine ⟨c, rfl, ?_⟩
    by_cases hsp : isReSpace c = true
    · right; exact hsp
    · left
      rw [List.dropWhile_cons, if_neg hsp] at hdw
      exact (List.cons.injEq _ _ _ _ ▸ hdw).1

theorem strStarts_head_ne {l p : Str} {c d : Char} (hl : l.head? = some c)
    (hp : p.head? = some d) (hne : c ≠ d) : strStarts l p = false := by
  cases l with
  | nil => simp at hl
  | cons c0 cs =>
    cases p with
    | nil => simp at hp
    | cons d0 ps =>
      have hc0 : c0 = c := by simpa using hl
      have hd0 : d0 = d := by simpa using hp
      subst hc0; subst hd0
      simp [strStarts, hne]

theorem headingMatch_none_of_head {l : Str} {c : Char} (hl : l.head? = some c)
    (hc : c ≠ '#') : headingMatch l = none := by
  cases l with
  | nil => simp at hl
  | cons c0 cs =>
    have hc0 : c0 ≠ '#' := by
      have hcc : c0 = c := by simpa using hl
      rw [hcc]; exact hc
    have htw : (c0 :: cs).takeWhile (fun x => x = '#') = [] := by
      simp [List.takeWhile_cons, hc0]
    unfold headingMatch
    rw [htw]
    simp

theorem mem_dropWhile_of_not {p : Char → Bool} {c : Char} (hc : p c = false) :
    ∀ l : Str, c ∈ l → c ∈ l.dropWhile p := by
  intro l
  induction l with
  | nil => intro hmem; simp at hmem
  | cons x xs ih =>
    intro hmem
    rw [List.dropWhile_cons]
    by_cases hx : p x = true
    · rw [if_pos hx]
      rcases List.mem_cons.mp hmem with hcx | hmem2
      · rw [hcx] at hc; rw [hc] at hx; exact absurd hx (by simp)
      · exact ih hmem2
    · rw [if_neg hx]; exact hmem

theorem mem_trimSpace {c : Char} {l : Str} (hmem : c ∈ l) (hc : isGoSpace c = false) :
    c ∈ trimSpace l := by
  unfold trimSpace dropEndWhile
  have h1 : c ∈ l.dropWhile isGoSpace := mem_dropWhile_of_not hc l hmem
  have h2 : c ∈ (l.dropWhile isGoSpace).reverse := List.mem_reverse.mpr h1
  exact List.mem_reverse.mpr (mem_dropWhile_of_not hc _ h2)

theorem hrMatch_false_of_mem {t : Str} (hmem : '[' ∈ t) : hrMatch t = false := by
  have hall : ∀ g : Char → Bool, g '[' = false → t.all g = false := by
    intro g hg
    cases hta : t.all g with
    | false => rfl
    | true =>
      have hh := List.all_eq_true.mp hta _ hmem
      rw [hg] at hh; exact absurd hh (by simp)
  unfold hrMatch
  rw [hall _ (by decide), hall _ (by decide), hall _ (by decide)]
  simp

theorem dropWhile_go_of_re {r2 : List Char} :
    ∀ l : Str, l.dropWhile isReSpace = '-' :: r2 →
      l.dropWhile isGoSpace = '-' :: r2 := by
  intro l
  induction l with
  | nil => intro h; simp at h
  | cons x xs ih =>
    intro h
    rw [List.dropWhile_cons] at h
    by_cases hx : isReSpace x = true
    · rw [if_pos hx] at h
      rw [List.dropWhile_cons, if_pos (isReSpace_isGoSpace hx)]
      exact ih h
    · rw [if_neg hx] at h
      have hxd : x = '-' := (List.cons.injEq _ _ _ _ ▸ h).1
      subst hxd
      rw [List.dropWhile_cons, if_neg (by decide)]
      exact h

theorem dropEndWhile_isPrefixOf (p : Char → Bool) (x : Str) : dropEndWhile p x <+: x := by
  unfold dropEndWhile
  have hsuf : x.reverse.dropWhile p <:+ x.reverse := List.dropWhile_suffix p
  rw [← List.reverse_suffix]
  simpa using hsuf

theorem trimSpace_head_dash {l : Str} {r2 : List Char}
    (hdw : l.dropWhile isReSpace = '-' :: r2) (hne : trimSpace l ≠ []) :
    ∃ ys, trimSpace l = '-' :: ys := by
  have hgo : l.dropWhile isGoSpace = '-' :: r2 := dropWhile_go_of_re l hdw
  have htl : trimSpace l = dropEndWhile isGoSpace ('-' :: r2) := by
    unfold trimSpace; rw [hgo]
  obtain ⟨s, hs⟩ := dropEndWhile_isPrefixOf isGoSpace ('-' :: r2)
  cases hform : dropEndWhile isGoSpace ('-' :: r2) with
  | nil => rw [htl, hform] at hne; exact absurd rfl hne
  | cons y ys =>
    rw [hform] at hs
    have hy : y = '-' := by
      have := hs
      simp at this
      exact this.1
    refine ⟨ys, ?_⟩
    rw [htl, hform, hy]

end Takl

namespace Takl

theorem unorderedStart_of_task {l : Str} {r2 : List Char}
    (hdw : l.dropWhile isReSpace = '-' :: r2) (htw : r2.takeWhile isReSpace ≠ []) :
    unorderedStartTest l = true := by
  unfold unorderedStartTest spanP
  rw [hdw]
  simp [htw]

/-- With a `reTaskListItem` match on the head line, every dispatch guard
before the task-list check is false, so the dispatch returns the task list
(the unordered-list check, though it would also fire, is never reached). -/
theorem blockDispatch_task (inner : Str → Option ADFDocument) (l : Str)
    (rest : List Str) {m : Str × Char × Str} (h : taskItemMatch l = some m) :
    blockDispatch inner (l :: rest) = some (parseTaskList (l :: rest)) := by
  obtain ⟨r2, hdw, htw, hbr⟩ := taskItemMatch_shape h
  obtain ⟨c, hhead, hc⟩ := taskLine_head hdw
  have hcne : c ≠ '`' ∧ c ≠ '#' ∧ c ≠ '<' ∧ c ≠ '>' ∧ c ≠ '|' := by
    rcases hc with hc | hc
    · subst hc; exact ⟨by decide, by decide, by decide, by decide, by decide⟩
    · exact ⟨(isReSpace_ne hc).1, (isReSpace_ne hc).2.1, (isReSpace_ne hc).2.2.1,
        (isReSpace_ne hc).2.2.2.1, (isReSpace_ne hc).2.2.2.2.1⟩
  have hmem_l : '[' ∈ l := by
    have h1 : '[' ∈ l.dropWhile isReSpace := by
      rw [hdw]; exact List.mem_cons_of_mem _ hbr
    exact (List.dropWhile_suffix isReSpace).subset h1
  have hmem_t : '[' ∈ trimSpace l := mem_trimSpace hmem_l (by decide)
  have htne : trimSpace l ≠ [] := by
    intro hnil; rw [hnil] at hmem_t; simp at hmem_t
  obtain ⟨ys, hys⟩ := trimSpace_head_dash hdw htne
  have hfence : strStarts l "```".data = false :=
    strStarts_head_ne hhead rfl hcne.1
  have hheading : headingMatch l = none := headingMatch_none_of_head hhead hcne.2.1
  have hhr : hrMatch (trimSpace l) = false := hrMatch_false_of_mem hmem_t
  have htable : strStarts (trimSpace l) "|".data = false := by
    rw [hys]; exact strStarts_head_ne rfl rfl (by decide)
  have hpanel : strStarts l "<div data-panel=".data = false :=
    strStarts_head_ne hhead rfl hcne.2.2.1
  have hdet : strStarts l "<details".data = false :=
    strStarts_head_ne hhead rfl hcne.2.2.1
  have hquote : strStarts l "> ".data = false :=
    strStarts_head_ne hhead rfl hcne.2.2.2.1
  simp only [blockDispatch]
  rw [hfence, hheading]
  simp only [Bool.false_eq_true, if_false]
  rw [hhr, htable]
  simp only [Bool.false_and, Bool.false_eq_true, if_false]
  rw [hpanel, hdet, hquote]
  simp only [Bool.false_eq_true, if_false, h]
  simp

/-- Every child `parseTaskList` produces comes from a line matched by
`reTaskListItem`, is a `taskItem` with a one-paragraph body, and has state
`DONE` exactly when the checkbox character is `x` or `X` (else `TODO`). -/
theorem taskLoop_items :
    ∀ (lines : List Str) (base : Nat) (item : ADFNode),
      item ∈ (taskLoop lines base).1 →
      ∃ ln mm, ln ∈ lines ∧ taskItemMatch ln = some mm ∧
        item = .mk "taskItem".data [paragraphNode (parseInlineContent mm.2.2)] [] []
          (some [("state".data, AttrVal.s (if mm.2.1 = 'x' || mm.2.1 = 'X'
            then "DONE".data else "TODO".data))]) := by
  intro lines
  induction lines with
  | nil => intro base item h; simp [taskLoop] at h
  | cons l rest ih =>
    intro base item h
    unfold taskLoop at h
    split at h
    · simp at h
    · split at h
      case h_1 => simp at h
      case h_2 mm hm =>
        split at h
        case isTrue heq =>
          dsimp only at h
          rcases hres : taskLoop rest base with ⟨items, n⟩
          rw [hres] at h
          simp only [List.mem_cons] at h
          rcases h with h | h
          · exact ⟨l, mm, List.mem_cons_self l rest, hm, h⟩
          · obtain ⟨ln, mm2, hln, hm2, hitem⟩ := ih base item (by rw [hres]; exact h)
            exact ⟨ln, mm2, List.mem_cons_of_mem l hln, hm2, hitem⟩
        case isFalse heq => simp at h

/-- C9 holds: a line matching the task-checkbox pattern (at any indentation)
is dispatched to `parseTaskList` — ahead of the generic unordered-list check,
which the line also satisfies — producing a `taskList` (never a
`bulletList`) whose children are all `taskItem` nodes, each with state
`DONE` exactly when its checkbox character is `x` or `X`, `TODO` otherwise. -/
theorem C9_task_list_dispatch (inner : Str → Option ADFDocument) (l : Str)
    (rest : List Str) (m : Str × Char × Str) (h : taskItemMatch l = some m) :
    blockDispatch inner (l :: rest) = some (parseTaskList (l :: rest)) ∧
    (parseTaskList (l :: rest)).1.ty = "taskList".data ∧
    (parseTaskList (l :: rest)).1.ty ≠ "bulletList".data ∧
    unorderedStartTest l = true ∧
    ∀ item ∈ (parseTaskList (l :: rest)).1.content,
      item.ty = "taskItem".data ∧
      ∃ ln mm, ln ∈ l :: rest ∧ taskItemMatch ln = some mm ∧
        attrGet item.attrs "state".data =
          some (AttrVal.s (if mm.2.1 = 'x' || mm.2.1 = 'X'
            then "DONE".data else "TODO".data)) := by
  obtain ⟨r2, hdw, htw, _⟩ := taskItemMatch_shape h
  rcases hres : taskLoop (l :: rest) (getIndent l) with ⟨items, n⟩
  have hpt : parseTaskList (l :: rest) = (ADFNode.mk "taskList".data items [] [] none, n) := by
    show (match taskLoop (l :: rest) (getIndent l) with
          | (its, k) => (ADFNode.mk "taskList".data its [] [] none, k)) =
        (ADFNode.mk "taskList".data items [] [] none, n)
    rw [hres]
  refine ⟨blockDispatch_task inner l rest h, by rw [hpt]; rfl,
    by rw [hpt]; show "taskList".data ≠ "bulletList".data; decide,
    unorderedStart_of_task hdw htw, ?_⟩
  intro item hitem
  rw [hpt] at hitem
  have hitem2 : item ∈ items := hitem
  obtain ⟨ln, mm, hln, hm2, hform⟩ :=
    taskLoop_items (l :: rest) (getIndent l) item (by rw [hres]; exact hitem2)
  constructor
  · rw [hform]; rfl
  · refine ⟨ln, mm, hln, hm2, ?_⟩
    rw [hform]
    rfl

/-- Witness for C9: the line `"  - [X] done"` (indented task, capital X)
followed by `"  - [ ] later"`. -/
theorem C9_task_list_dispatch_witness :
    taskItemMatch "  - [X] done".data = some ("  ".data, 'X', "done".data) ∧
    blockDispatch (fun _ => none) ["  - [X] done".data, "  - [ ] later".data] =
      some (parseTaskList ["  - [X] done".data, "  - [ ] later".data]) ∧
    unorderedStartTest "  - [X] done".data = true :=
  ⟨rfl,
   (C9_task_list_dispatch (fun _ => none) "  - [X] done".data ["  - [ ] later".data]
     ("  ".data, 'X', "done".data) rfl).1,
   (C9_task_list_dispatch (fun _ => none) "  - [X] done".data ["  - [ ] later".data]
     ("  ".data, 'X', "done".data) rfl).2.2.2.1⟩

end Takl

namespace Takl

/-! ## Claim C4: length facts about the inline matchers -/

theorem expCh_lt {c : Char} {s r : Str} (h : expCh c s = some r) : r.length < s.length := by
  cases s with
  | nil => simp [expCh] at h
  | cons x xs =>
    rw [show expCh c (x :: xs) = if x = c then some xs else none from rfl] at h
    split at h
    · rw [← Option.some_inj.mp h]; simp
    · exact absurd h (by simp)

theorem strStarts_length {s p : Str} (h : strStarts s p = true) : p.length ≤ s.length := by
  induction p generalizing s with
  | nil => simp
  | cons c cs ih =>
    cases s with
    | nil => simp [strStarts] at h
    | cons x xs =>
      simp only [strStarts, Bool.and_eq_true] at h
      have := ih h.2
      simp only [List.length_cons]
      omega

theorem expLit_le {lit s r : Str} (h : expLit lit s = some r) : r.length ≤ s.length := by
  unfold expLit at h
  split at h
  · rw [← Option.some_inj.mp h]; simp
  · simp at h

theorem expLit_lt {lit s r : Str} (hne : lit ≠ []) (h : expLit lit s = some r) :
    r.length < s.length := by
  unfold expLit at h
  split at h
  next hs =>
    have hl : lit.length ≤ s.length := strStarts_length hs
    have h1 : 1 ≤ lit.length := by
      cases lit with
      | nil => exact absurd rfl hne
      | cons c cs => simp
    rw [← Option.some_inj.mp h]
    simp only [List.length_drop]
    omega
  · simp at h

theorem spanNE_shape {p : Char → Bool} {s : Str} {pr : Str × Str}
    (h : spanNE p s = some pr) : pr.1 ≠ [] ∧ pr.1 ++ pr.2 = s := by
  unfold spanNE at h
  split at h
  · simp at h
  next hne =>
    rw [← Option.some_inj.mp h]
    exact ⟨hne, List.takeWhile_append_dropWhile p s⟩

theorem spanNE_lt {p : Char → Bool} {s : Str} {pr : Str × Str}
    (h : spanNE p s = some pr) : pr.2.length < s.length := by
  obtain ⟨h1, h2⟩ := spanNE_shape h
  have hlen := congrArg List.length h2
  rw [List.length_append] at hlen
  have : 1 ≤ pr.1.length := by
    cases hp : pr.1 with
    | nil => exact absurd hp h1
    | cons c cs => simp
  omega

theorem colorGroup_le {w r : Str} {pr : Str × Str} (h : colorGroup w r = some pr) :
    pr.2.length ≤ r.length := by
  unfold colorGroup spanP at h
  split at h
  next heq =>
    split at h
    · rw [← Option.some_inj.mp h]
    · simp at h
  next clr r2 heq =>
    rw [← Option.some_inj.mp h]
    have h2 := congrArg Prod.snd heq
    simp only at h2
    rw [← h2]
    exact (List.dropWhile_suffix _).length_le

theorem spanCloseTail_lt {g r : Str} {res : MRes} (h : spanCloseTail g r = some res) :
    res.rest.length < r.length := by
  unfold spanCloseTail at h
  simp only [bind, Option.bind_eq_some] at h
  obtain ⟨r1, h1, pr, h2, r3, h3, heq⟩ := h
  have e1 := expLit_lt (by decide) h1
  have e2 := spanNE_lt h2
  have e3 := expLit_lt (by decide) h3
  have hr : res.rest = r3 := by rw [← Option.some_inj.mp heq]
  rw [hr]
  omega

end Takl

namespace Takl

theorem matchImageAt_lt {s : Str} {r : MRes} (h : matchImageAt s = some r) :
    r.rest.length < s.length := by
  unfold matchImageAt at h
  simp only [spanP, bind, Option.bind_eq_some] at h
  obtain ⟨r1, h1, r2, h2, r4, h3, r5, h4, pr, h5, r7, h6, heq⟩ := h
  rw [← Option.some_inj.mp heq]
  show r7.length < s.length
  have e1 := expCh_lt h1
  have e2 := expCh_lt h2
  have e3 := expCh_lt h3
  have e4 := expCh_lt h4
  have e5 := spanNE_lt h5
  have e6 := expCh_lt h6
  have ed : (List.dropWhile (fun c => c != ']') r2).length ≤ r2.length :=
    (List.dropWhile_suffix _).length_le
  omega

theorem matchLinkAt_lt {s : Str} {r : MRes} (h : matchLinkAt s = some r) :
    r.rest.length < s.length := by
  unfold matchLinkAt at h
  simp only [bind, Option.bind_eq_some] at h
  obtain ⟨r1, h1, pr1, h2, r3, h3, r4, h4, pr2, h5, r6, h6, heq⟩ := h
  rw [← Option.some_inj.mp heq]
  show r6.length < s.length
  have e1 := expCh_lt h1
  have e2 := spanNE_lt h2
  have e3 := expCh_lt h3
  have e4 := expCh_lt h4
  have e5 := spanNE_lt h5
  have e6 := expCh_lt h6
  omega

theorem matchCodeAt_lt {s : Str} {r : MRes} (h : matchCodeAt s = some r) :
    r.rest.length < s.length := by
  unfold matchCodeAt at h
  simp only [bind, Option.bind_eq_some] at h
  obtain ⟨r1, h1, pr, h2, r3, h3, heq⟩ := h
  rw [← Option.some_inj.mp heq]
  show r3.length < s.length
  have e1 := expCh_lt h1
  have e2 := spanNE_lt h2
  have e3 := expCh_lt h3
  omega

theorem matchStatusAt_lt {s : Str} {r : MRes} (h : matchStatusAt s = some r) :
    r.rest.length < s.length := by
  unfold matchStatusAt at h
  simp only [bind, Option.bind_eq_some] at h
  obtain ⟨r1, h1, pr, h2, h3⟩ := h
  have e1 := expLit_lt (by decide) h1
  have e2 := spanNE_lt h2
  have e3 := spanCloseTail_lt h3
  omega

theorem matchTextColorAt_lt {s : Str} {r : MRes} (h : matchTextColorAt s = some r) :
    r.rest.length < s.length := by
  unfold matchTextColorAt at h
  simp only [spanP, bind, Option.bind_eq_some] at h
  obtain ⟨r1, h1, pr, h2, h3⟩ := h
  have e1 := expLit_lt (by decide) h1
  have e2 := colorGroup_le h2
  have e3 := spanCloseTail_lt h3
  have ed : (List.dropWhile isReSpace r1).length ≤ r1.length :=
    (List.dropWhile_suffix _).length_le
  omega

theorem matchBorderAt_lt {s : Str} {r : MRes} (h : matchBorderAt s = some r) :
    r.rest.length < s.length := by
  unfold matchBorderAt at h
  simp only [spanP, bind, Option.bind_eq_some] at h
  obtain ⟨r1, h1, r3, h2, pr, h3, h4⟩ := h
  have e1 := expLit_lt (by decide) h1
  have e2 := expLit_lt (by decide) h2
  have e3 := colorGroup_le h3
  have e4 := spanCloseTail_lt h4
  have ed1 : (List.dropWhile isReSpace r1).length ≤ r1.length :=
    (List.dropWhile_suffix _).length_le
  have ed2 : (List.dropWhile isReSpace r3).length ≤ r3.length :=
    (List.dropWhile_suffix _).length_le
  omega

theorem matchSubAt_lt {s : Str} {r : MRes} (h : matchSubAt s = some r) :
    r.rest.length < s.length := by
  unfold matchSubAt at h
  simp only [bind, Option.bind_eq_some] at h
  obtain ⟨r1, h1, pr, h2, r3, h3, heq⟩ := h
  rw [← Option.some_inj.mp heq]
  show r3.length < s.length
  have e1 := expLit_lt (by decide) h1
  have e2 := spanNE_lt h2
  have e3 := expLit_lt (by decide) h3
  omega

theorem matchSupAt_lt {s : Str} {r : MRes} (h : matchSupAt s = some r) :
    r.rest.length < s.length := by
  unfold matchSupAt at h
  simp only [bind, Option.bind_eq_some] at h
  obtain ⟨r1, h1, pr, h2, r3, h3, heq⟩ := h
  rw [← Option.some_inj.mp heq]
  show r3.length < s.length
  have e1 := expLit_lt (by decide) h1
  have e2 := spanNE_lt h2
  have e3 := expLit_lt (by decide) h3
  omega

theorem matchUnderlineAt_lt {s : Str} {r : MRes} (h : matchUnderlineAt s = some r) :
    r.rest.length < s.length := by
  unfold matchUnderlineAt at h
  simp only [bind, Option.bind_eq_some] at h
  obtain ⟨r1, h1, pr, h2, r3, h3, heq⟩ := h
  rw [← Option.some_inj.mp heq]
  show r3.length < s.length
  have e1 := expLit_lt (by decide) h1
  have e2 := spanNE_lt h2
  have e3 := expLit_lt (by decide) h3
  omega

theorem matchMentionAt_lt {s : Str} {r : MRes} (h : matchMentionAt s = some r) :
    r.rest.length < s.length := by
  unfold matchMentionAt at h
  simp only [bind, Option.bind_eq_some] at h
  obtain ⟨r1, h1, pr, h2, j, h3, heq⟩ := h
  rw [← Option.some_inj.mp heq]
  show (pr.1.drop j ++ pr.2).length < s.length
  have e1 := expCh_lt h1
  obtain ⟨_, happ⟩ := spanNE_shape h2
  have hlen := congrArg List.length happ
  rw [List.length_append] at hlen
  have hd : (pr.1.drop j).length ≤ pr.1.length := by
    rw [List.length_drop]; omega
  rw [List.length_append]
  omega

theorem matchEmojiAt_lt {s : Str} {r : MRes} (h : matchEmojiAt s = some r) :
    r.rest.length < s.length := by
  unfold matchEmojiAt at h
  simp only [bind, Option.bind_eq_some] at h
  obtain ⟨r1, h1, pr, h2, r3, h3, heq⟩ := h
  rw [← Option.some_inj.mp heq]
  show r3.length < s.length
  have e1 := expCh_lt h1
  have e2 := spanNE_lt h2
  have e3 := expCh_lt h3
  omega

theorem matchBold1At_lt {s : Str} {r : MRes} (h : matchBold1At s = some r) :
    r.rest.length < s.length := by
  unfold matchBold1At at h
  simp only [bind, Option.bind_eq_some] at h
  obtain ⟨r1, h1, r2, h2, pr, h3, r4, h4, r5, h5, heq⟩ := h
  rw [← Option.some_inj.mp heq]
  show r5.length < s.length
  have e1 := expCh_lt h1
  have e2 := expCh_lt h2
  have e3 := spanNE_lt h3
  have e4 := expCh_lt h4
  have e5 := expCh_lt h5
  omega

theorem matchBold2At_lt {s : Str} {r : MRes} (h : matchBold2At s = some r) :
    r.rest.length < s.length := by
  unfold matchBold2At at h
  simp only [bind, Option.bind_eq_some] at h
  obtain ⟨r1, h1, r2, h2, pr, h3, r4, h4, r5, h5, heq⟩ := h
  rw [← Option.some_inj.mp heq]
  show r5.length < s.length
  have e1 := expCh_lt h1
  have e2 := expCh_lt h2
  have e3 := spanNE_lt h3
  have e4 := expCh_lt h4
  have e5 := expCh_lt h5
  omega

theorem matchItalic1At_lt {s : Str} {r : MRes} (h : matchItalic1At s = some r) :
    r.rest.length < s.length := by
  unfold matchItalic1At at h
  simp only [bind, Option.bind_eq_some] at h
  obtain ⟨r1, h1, pr, h2, r3, h3, heq⟩ := h
  rw [← Option.some_inj.mp heq]
  show r3.length < s.length
  have e1 := expCh_lt h1
  have e2 := spanNE_lt h2
  have e3 := expCh_lt h3
  omega

theorem matchItalic2At_lt {s : Str} {r : MRes} (h : matchItalic2At s = some r) :
    r.rest.length < s.length := by
  unfold matchItalic2At at h
  simp only [bind, Option.bind_eq_some] at h
  obtain ⟨r1, h1, pr, h2, r3, h3, heq⟩ := h
  rw [← Option.some_inj.mp heq]
  show r3.length < s.length
  have e1 := expCh_lt h1
  have e2 := spanNE_lt h2
  have e3 := expCh_lt h3
  omega

theorem matchStrikeAt_lt {s : Str} {r : MRes} (h : matchStrikeAt s = some r) :
    r.rest.length < s.length := by
  unfold matchStrikeAt at h
  simp only [bind, Option.bind_eq_some] at h
  obtain ⟨r1, h1, r2, h2, pr, h3, r4, h4, r5, h5, heq⟩ := h
  rw [← Option.some_inj.mp heq]
  show r5.length < s.length
  have e1 := expCh_lt h1
  have e2 := expCh_lt h2
  have e3 := spanNE_lt h3
  have e4 := expCh_lt h4
  have e5 := expCh_lt h5
  omega

end Takl

namespace Takl

theorem scanFind_shape {m : Str → Option MRes} :
    ∀ {l : Str} {f : Found}, scanFind m l = some f →
      ∃ suf, l = f.pre ++ suf ∧ suf ≠ [] ∧ m suf = some ⟨f.g1, f.g2, f.rest⟩ := by
  intro l
  induction l with
  | nil => intro f h; simp [scanFind] at h
  | cons c cs ih =>
    intro f h
    unfold scanFind at h
    cases hm : m (c :: cs) with
    | some res =>
      rw [hm] at h
      have hf := Option.some_inj.mp h
      refine ⟨c :: cs, ?_, by simp, ?_⟩
      · rw [← hf]; rfl
      · rw [← hf]
        exact hm
    | none =>
      rw [hm] at h
      cases hs : scanFind m cs with
      | none => rw [hs] at h; simp at h
      | some f0 =>
        rw [hs] at h
        simp only [Option.map_some'] at h
        obtain ⟨suf, ha, hne, hm2⟩ := ih hs
        refine ⟨suf, ?_, hne, ?_⟩
        · rw [← Option.some_inj.mp h]
          show c :: cs = (c :: f0.pre) ++ suf
          rw [ha]
          rfl
        · rw [← Option.some_inj.mp h]
          exact hm2

/-- Every table entry's matcher consumes at least one character. -/
theorem patterns_mAt_lt :
    ∀ p ∈ inlinePatterns, ∀ {suf : Str} {r : MRes}, p.mAt suf = some r →
      r.rest.length < suf.length := by
  intro p hp
  simp only [inlinePatterns, List.mem_cons, List.not_mem_nil, or_false] at hp
  rcases hp with rfl | rfl | rfl | rfl | rfl | rfl | rfl | rfl | rfl | rfl | rfl | rfl |
    rfl | rfl | rfl | rfl
  · exact fun h => matchImageAt_lt h
  · exact fun h => matchLinkAt_lt h
  · exact fun h => matchCodeAt_lt h
  · exact fun h => matchStatusAt_lt h
  · exact fun h => matchTextColorAt_lt h
  · exact fun h => matchBorderAt_lt h
  · exact fun h => matchSubAt_lt h
  · exact fun h => matchSupAt_lt h
  · exact fun h => matchUnderlineAt_lt h
  · exact fun h => matchMentionAt_lt h
  · exact fun h => matchEmojiAt_lt h
  · exact fun h => matchBold1At_lt h
  · exact fun h => matchBold2At_lt h
  · exact fun h => matchItalic1At_lt h
  · exact fun h => matchItalic2At_lt h
  · exact fun h => matchStrikeAt_lt h

/-- A leftmost match of any table pattern starts before the end of the text
and leaves a strictly shorter rest. -/
theorem patterns_find_lt {p : Pat} (hp : p ∈ inlinePatterns) {s : Str} {f : Found}
    (h : p.find s = some f) : f.rest.length < s.length ∧ f.pre.length < s.length := by
  obtain ⟨suf, ha, hne, hm⟩ := scanFind_shape h
  have hlen := congrArg List.length ha
  rw [List.length_append] at hlen
  have hsuf1 : 1 ≤ suf.length := by
    cases hsf : suf with
    | nil => exact absurd hsf hne
    | cons a b => simp
  have hrest : f.rest.length < suf.length := patterns_mAt_lt p hp hm
  constructor <;> omega

end Takl

namespace Takl

theorem pickFrom_cons (p : Pat) (ps : List Pat) (i : Nat) (s : Str) (e : Nat)
    (best : Option (Nat × Pat × Found)) :
    pickFrom (p :: ps) i s e best =
      (match p.find s with
       | some f =>
          if f.pre.length < e then pickFrom ps (i + 1) s f.pre.length (some (i, p, f))
          else pickFrom ps (i + 1) s e best
       | none => pickFrom ps (i + 1) s e best) := rfl

theorem pickFrom_some_stays :
    ∀ (ps : List Pat) (i : Nat) (s : Str) (e : Nat) (x : Nat × Pat × Found),
      pickFrom ps i s e (some x) ≠ none := by
  intro ps
  induction ps with
  | nil => intro i s e x; simp [pickFrom]
  | cons p ps ih =>
    intro i s e x hcon
    rw [pickFrom_cons] at hcon
    cases hf : p.find s with
    | none => rw [hf] at hcon; exact ih (i + 1) s e x hcon
    | some f =>
      rw [hf] at hcon
      have h2 : (if List.length f.pre < e then
            pickFrom ps (i + 1) s (List.length f.pre) (some (i, p, f))
          else pickFrom ps (i + 1) s e (some x)) = none := hcon
      by_cases hlt : f.pre.length < e
      · rw [if_pos hlt] at h2; exact ih (i + 1) s f.pre.length (i, p, f) h2
      · rw [if_neg hlt] at h2; exact ih (i + 1) s e x h2

theorem pickFrom_none_bound :
    ∀ (ps : List Pat) (i : Nat) (s : Str) (e : Nat),
      pickFrom ps i s e none = none →
      ∀ p ∈ ps, ∀ f, p.find s = some f → e ≤ f.pre.length := by
  intro ps
  induction ps with
  | nil => intro i s e _ p hp; simp at hp
  | cons q ps ih =>
    intro i s e h p hp f hf
    rw [pickFrom_cons] at h
    cases hq : q.find s with
    | none =>
      rw [hq] at h
      rcases List.mem_cons.mp hp with rfl | hp2
      · rw [hf] at hq; exact absurd hq (by simp)
      · exact ih (i + 1) s e h p hp2 f hf
    | some g =>
      rw [hq] at h
      have h2 : (if List.length g.pre < e then
            pickFrom ps (i + 1) s (List.length g.pre) (some (i, q, g))
          else pickFrom ps (i + 1) s e none) = none := h
      by_cases hlt : g.pre.length < e
      · rw [if_pos hlt] at h2
        exact absurd h2 (pickFrom_some_stays ps (i + 1) s g.pre.length (i, q, g))
      · rw [if_neg hlt] at h2
        rcases List.mem_cons.mp hp with rfl | hp2
        · have hfg : f = g := by rw [hf] at hq; exact Option.some_inj.mp hq
          rw [hfg]
          omega
        · exact ih (i + 1) s e h2 p hp2 f hf

theorem pickEarliest_none {s : Str} (h : pickEarliest s = none) :
    ∀ p ∈ inlinePatterns, p.find s = none := by
  intro p hp
  cases hf : p.find s with
  | none => rfl
  | some f =>
    have hb := pickFrom_none_bound inlinePatterns 0 s s.length h p hp f hf
    have hlt := (patterns_find_lt hp hf).2
    omega

theorem pickFrom_some_spec (s : Str) :
    ∀ (ps : List Pat) (i e : Nat) (best : Option (Nat × Pat × Found))
      (k : Nat) (p : Pat) (f : Found),
      inlinePatterns.drop i = ps →
      (∀ k0 p0 f0, best = some (k0, p0, f0) →
        inlinePatterns[k0]? = some p0 ∧ p0.find s = some f0 ∧
          f0.pre.length = e ∧ k0 < i) →
      (best = none → e = s.length) →
      (∀ j q g, j < i → inlinePatterns[j]? = some q → q.find s = some g →
        e ≤ g.pre.length ∧
          (e = g.pre.length → ∃ k0 p0 f0, best = some (k0, p0, f0) ∧ k0 ≤ j)) →
      pickFrom ps i s e best = some (k, p, f) →
      inlinePatterns[k]? = some p ∧ p.find s = some f ∧
        ∀ j q g, inlinePatterns[j]? = some q → q.find s = some g →
          f.pre.length < g.pre.length ∨ (f.pre.length = g.pre.length ∧ k ≤ j) := by
  intro ps
  induction ps with
  | nil =>
    intro i e best k p f hdrop hbest hnone hmin h
    have hb : best = some (k, p, f) := h
    obtain ⟨hg, hfind, hpos, hki⟩ := hbest k p f hb
    refine ⟨hg, hfind, ?_⟩
    intro j q g hgj hfq
    by_cases hj : j < i
    · obtain ⟨hle, htie⟩ := hmin j q g hj hgj hfq
      rcases Nat.eq_or_lt_of_le hle with heq | hlt
      · right
        obtain ⟨k0, p0, f0, hb0, hk0⟩ := htie heq
        rw [hb] at hb0
        have hk0k : k0 = k := by
          have hinj := Option.some_inj.mp hb0
          exact ((Prod.mk.injEq _ _ _ _).mp hinj).1.symm
        constructor
        · omega
        · omega
      · left; omega
    · exfalso
      have hlen : inlinePatterns.length ≤ i := by
        have hld := congrArg List.length hdrop
        rw [List.length_drop] at hld
        simp at hld
        omega
      have hnone2 : inlinePatterns[j]? = none := List.getElem?_eq_none (by omega)
      rw [hnone2] at hgj
      exact absurd hgj (by simp)
  | cons q ps ih =>
    intro i e best k p f hdrop hbest hnone hmin h
    have hqi : inlinePatterns[i]? = some q := by
      have h0 : (inlinePatterns.drop i)[0]? = some q := by
        rw [hdrop]; exact List.getElem?_cons_zero
      rw [List.getElem?_drop] at h0
      simpa using h0
    have hdrop2 : inlinePatterns.drop (i + 1) = ps := by
      have hdd := congrArg (List.drop 1) hdrop
      rw [List.drop_drop] at hdd
      simpa using hdd
    rw [pickFrom_cons] at h
    cases hq : q.find s with
    | none =>
      rw [hq] at h
      refine ih (i + 1) e best k p f hdrop2 ?_ hnone ?_ h
      · intro k0 p0 f0 hb0
        obtain ⟨a, b, c, d⟩ := hbest _ _ _ hb0
        exact ⟨a, b, c, by omega⟩
      · intro j q2 g hj hq2 hg2
        by_cases hji : j < i
        · exact hmin j q2 g hji hq2 hg2
        · have hje : j = i := by omega
          subst hje
          rw [hqi] at hq2
          have hq2q : q2 = q := (Option.some_inj.mp hq2).symm
          rw [hq2q, hq] at hg2
          exact absurd hg2 (by simp)
    | some g0 =>
      rw [hq] at h
      have h2 : (if List.length g0.pre < e then
            pickFrom ps (i + 1) s (List.length g0.pre) (some (i, q, g0))
          else pickFrom ps (i + 1) s e best) = some (k, p, f) := h
      by_cases hlt : g0.pre.length < e
      · rw [if_pos hlt] at h2
        refine ih (i + 1) g0.pre.length (some (i, q, g0)) k p f hdrop2 ?_ ?_ ?_ h2
        · intro k0 p0 f0 hb0
          have hinj := Option.some_inj.mp hb0
          have hk0 : i = k0 := ((Prod.mk.injEq _ _ _ _).mp hinj).1
          have hrest := ((Prod.mk.injEq _ _ _ _).mp hinj).2
          have hp0 : q = p0 := ((Prod.mk.injEq _ _ _ _).mp hrest).1
          have hf0 : g0 = f0 := ((Prod.mk.injEq _ _ _ _).mp hrest).2
          refine ⟨?_, ?_, ?_, ?_⟩
          · rw [← hk0, ← hp0]; exact hqi
          · rw [← hp0, ← hf0]; exact hq
          · rw [← hf0]
          · omega
        · intro hcon; exact absurd hcon (by simp)
        · intro j q2 g hj hq2 hg2
          by_cases hji : j < i
          · obtain ⟨hle, _⟩ := hmin j q2 g hji hq2 hg2
            constructor
            · omega
            · intro heq2
              exact absurd heq2 (by omega)
          · have hje : j = i := by omega
            subst hje
            rw [hqi] at hq2
            have hq2q : q2 = q := (Option.some_inj.mp hq2).symm
            rw [hq2q, hq] at hg2
            have hgg : g0 = g := Option.some_inj.mp hg2
            constructor
            · rw [hgg]
            · intro _
              exact ⟨j, q, g0, rfl, Nat.le_refl j⟩
      · rw [if_neg hlt] at h2
        refine ih (i + 1) e best k p f hdrop2 ?_ hnone ?_ h2
        · intro k0 p0 f0 hb0
          obtain ⟨a, b, c, d⟩ := hbest _ _ _ hb0
          exact ⟨a, b, c, by omega⟩
        · intro j q2 g hj hq2 hg2
          by_cases hji : j < i
          · exact hmin j q2 g hji hq2 hg2
          · have hje : j = i := by omega
            subst hje
            rw [hqi] at hq2
            have hq2q : q2 = q := (Option.some_inj.mp hq2).symm
            rw [hq2q, hq] at hg2
            have hgg : g0 = g := Option.some_inj.mp hg2
            constructor
            · rw [← hgg]; omega
            · intro heq
              cases hb : best with
              | none =>
                exfalso
                have he := hnone hb
                have hmem : q ∈ inlinePatterns := List.getElem?_mem hqi
                have hfl := (patterns_find_lt hmem hq).2
                rw [← hgg] at heq
                omega
              | some b0 =>
                rcases b0 with ⟨k0, p0, f0⟩
                obtain ⟨_, _, _, hki⟩ := hbest k0 p0 f0 hb
                exact ⟨k0, p0, f0, rfl, by omega⟩

theorem pickEarliest_spec {s : Str} {k : Nat} {p : Pat} {f : Found}
    (h : pickEarliest s = some (k, p, f)) :
    inlinePatterns[k]? = some p ∧ p.find s = some f ∧
      ∀ j q g, inlinePatterns[j]? = some q → q.find s = some g →
        f.pre.length < g.pre.length ∨ (f.pre.length = g.pre.length ∧ k ≤ j) :=
  pickFrom_some_spec s inlinePatterns 0 s.length none k p f rfl
    (by intro k0 p0 f0 hcon; exact absurd hcon (by simp))
    (fun _ => rfl)
    (by intro j q g hj; exact absurd hj (Nat.not_lt_zero j))
    h

end Takl

namespace Takl

theorem parseInlineGo_fuel :
    ∀ (n : Nat) (s : Str), s.length ≤ n → ∀ fuel1 fuel2,
      s.length < fuel1 → s.length < fuel2 →
      parseInlineGo fuel1 s = parseInlineGo fuel2 s := by
  intro n
  induction n with
  | zero =>
    intro s hs fuel1 fuel2 h1 h2
    have hsnil : s = [] := List.eq_nil_of_length_eq_zero (Nat.le_zero.mp hs)
    subst hsnil
    cases fuel1 with
    | zero => omega
    | succ f1 =>
      cases fuel2 with
      | zero => omega
      | succ f2 => rfl
  | succ n ih =>
    intro s hs fuel1 fuel2 h1 h2
    cases fuel1 with
    | zero => omega
    | succ f1 =>
      cases fuel2 with
      | zero => omega
      | succ f2 =>
        have e1 : parseInlineGo (f1 + 1) s =
            (if s = [] then [] else
              match pickEarliest s with
              | none => [textNode s]
              | some (_, p, f) =>
                (if f.pre = [] then [] else [textNode f.pre]) ++
                  inlineNodeFor p f :: parseInlineGo f1 f.rest) := rfl
        have e2 : parseInlineGo (f2 + 1) s =
            (if s = [] then [] else
              match pickEarliest s with
              | none => [textNode s]
              | some (_, p, f) =>
                (if f.pre = [] then [] else [textNode f.pre]) ++
                  inlineNodeFor p f :: parseInlineGo f2 f.rest) := rfl
        rw [e1, e2]
        by_cases hnil : s = []
        · rw [if_pos hnil, if_pos hnil]
        · rw [if_neg hnil, if_neg hnil]
          cases hpick : pickEarliest s with
          | none => rfl
          | some t =>
            rcases t with ⟨k, p, f⟩
            obtain ⟨hk, hfind, _⟩ := pickEarliest_spec hpick
            have hp : p ∈ inlinePatterns := List.getElem?_mem hk
            have hrl := (patterns_find_lt hp hfind).1
            have hrec := ih f.rest (by omega) f1 f2 (by omega) (by omega)
            show (if f.pre = [] then [] else [textNode f.pre]) ++
                inlineNodeFor p f :: parseInlineGo f1 f.rest =
              (if f.pre = [] then [] else [textNode f.pre]) ++
                inlineNodeFor p f :: parseInlineGo f2 f.rest
            rw [hrec]

/-- C4: for every nonempty input to the inline tokenizer, `parseInlineContent`
behaves as the spec describes: if no pattern in the fixed priority-ordered
list `inlinePatterns` matches anywhere, the whole string becomes a single
plain text node; otherwise the selected match `(k, p, f)` is a genuine match
of the k-th pattern, it starts no later than any other pattern's match, ties
in start position are broken by list order (smaller index wins), the
unmatched text before the match becomes a plain text node (omitted when
empty), the matched construct becomes `inlineNodeFor p f`, and the tokenizer
recurses on the unconsumed remainder `f.rest`. -/
theorem C4_inline_tokenizer (s : Str) (h : s ≠ []) :
    (pickEarliest s = none →
      (∀ p ∈ inlinePatterns, Pat.find p s = none) ∧
        parseInlineContent s = [textNode s]) ∧
    (∀ k p f, pickEarliest s = some (k, p, f) →
      inlinePatterns[k]? = some p ∧ Pat.find p s = some f ∧
        (∀ j q g, inlinePatterns[j]? = some q → Pat.find q s = some g →
          f.pre.length < g.pre.length ∨ (f.pre.length = g.pre.length ∧ k ≤ j)) ∧
        parseInlineContent s =
          (if f.pre = [] then [] else [textNode f.pre]) ++
            inlineNodeFor p f :: parseInlineContent f.rest) := by
  have estep : parseInlineContent s =
      (if s = [] then [] else
        match pickEarliest s with
        | none => [textNode s]
        | some (_, p, f) =>
          (if f.pre = [] then [] else [textNode f.pre]) ++
            inlineNodeFor p f :: parseInlineGo s.length f.rest) := rfl
  constructor
  · intro hnone
    refine ⟨pickEarliest_none hnone, ?_⟩
    rw [estep, if_neg h, hnone]
  · intro k p f hpick
    obtain ⟨hk, hfind, hmin⟩ := pickEarliest_spec hpick
    refine ⟨hk, hfind, hmin, ?_⟩
    have hp : p ∈ inlinePatterns := List.getElem?_mem hk
    have hlt := patterns_find_lt hp hfind
    have hfuel : parseInlineGo s.length f.rest =
        parseInlineGo (f.rest.length + 1) f.rest :=
      parseInlineGo_fuel f.rest.length f.rest (Nat.le_refl _) s.length
        (f.rest.length + 1) hlt.1 (Nat.lt_succ_self _)
    rw [estep, if_neg h, hpick]
    show (if f.pre = [] then [] else [textNode f.pre]) ++
        inlineNodeFor p f :: parseInlineGo s.length f.rest =
      (if f.pre = [] then [] else [textNode f.pre]) ++
        inlineNodeFor p f :: parseInlineContent f.rest
    rw [hfuel]
    rfl

/-- Witness for C4 at the concrete input "abc": no inline pattern matches,
so the tokenizer returns the single plain text node. -/
theorem C4_inline_tokenizer_witness :
    "abc".data ≠ [] ∧ parseInlineContent "abc".data = [textNode "abc".data] :=
  ⟨by decide, ((C4_inline_tokenizer "abc".data (by decide)).1 rfl).2⟩

end Takl
